import Mathlib

/-!
# Verification of the eNMS configuration archive and diff engine

Shallow embedding of `eNMS/controller/inventory.py`:

* `get_configuration_diff` (lines 77-83): parses the two timestamp strings with
  `datetime.strptime(d, "%Y+%m+%d %H:%M:%S.%f")`, fetches
  `device.configurations[d1]` / `[d2]`, splits both texts with `str.splitlines()`,
  and returns `SequenceMatcher(None, first, second).get_opcodes()`.
* `update_database_configurations_from_git` (lines 93-107): the archive write
  (`record`): `device.current_configuration = device.configurations[time] = f.read()`.
* `clear_configurations` (lines 134-135): `device.configurations = {}`.

The difflib `SequenceMatcher` (Python standard library, as called with
`isjunk=None` and `autojunk` enabled) is embedded in full: `b2j` with the
popular-element (autojunk) filtering, `find_longest_match` (the junk extension
loops are omitted because with `isjunk=None` the junk set is empty and their
guards are always false), the queue-based `get_matching_blocks` with the
adjacent-block collapse and the `(la, lb, 0)` sentinel, and `get_opcodes`.
-/

namespace ENMS

instance {ε α : Type} [DecidableEq ε] [DecidableEq α] : DecidableEq (Except ε α)
  | Except.error a, Except.error b =>
    if h : a = b then isTrue (congrArg Except.error h)
    else isFalse (fun hh => h (Except.error.inj hh))
  | Except.error _, Except.ok _ => isFalse (fun hh => Except.noConfusion hh)
  | Except.ok _, Except.error _ => isFalse (fun hh => Except.noConfusion hh)
  | Except.ok a, Except.ok b =>
    if h : a = b then isTrue (congrArg Except.ok h)
    else isFalse (fun hh => h (Except.ok.inj hh))

/-! ## Timestamps and the strptime model

`datetime.strptime(d, "%Y+%m+%d %H:%M:%S.%f")`.  CPython's `_strptime` compiles
the format to the regex
`(\d\d\d\d)\+(1[0-2]|0[1-9]|[1-9])\+(3[01]|[1-2]\d|0[1-9]|[1-9])\s+`
`(2[0-3]|[0-1]\d|\d):([0-5]\d|\d):(6[0-1]|[0-5]\d|\d)\.([0-9]{1,6})`,
requires the match to consume the whole string, and then builds a `datetime`,
which additionally validates `1 <= year`, `day <= days in month` and
`second <= 59` (the regex admits leap seconds 60/61, the constructor does not).
Each numeric field is followed by a non-digit literal, so the regex alternations
are deterministic: a two-digit alternative is taken exactly when the next two
characters are digits whose value lies in the alternative's range.
-/

structure Timestamp where
  year : Nat
  month : Nat
  day : Nat
  hour : Nat
  minute : Nat
  second : Nat
  microsecond : Nat
deriving DecidableEq, Repr

def digitVal (c : Char) : Nat := c.toNat - '0'.toNat

/-- The `\s` class of Python's `re` module (ASCII part plus the common
Unicode whitespace code points). -/
def isPySpace (c : Char) : Bool :=
  c = ' ' ∨ c = '\t' ∨ c = '\n' ∨ c = '\x0b' ∨ c = '\x0c' ∨ c = '\r' ∨
  c = '\x1c' ∨ c = '\x1d' ∨ c = '\x1e' ∨ c = '\x1f' ∨ c = '\x85' ∨
  c = '\xa0' ∨ c = '\u1680' ∨ ('\u2000' ≤ c ∧ c ≤ '\u200a') ∨
  c = '\u2028' ∨ c = '\u2029' ∨ c = '\u202f' ∨ c = '\u205f' ∨ c = '\u3000'

/-- `%Y`: exactly four digits. -/
def parse4Digits : List Char → Option (Nat × List Char)
  | c1 :: c2 :: c3 :: c4 :: rest =>
    if c1.isDigit ∧ c2.isDigit ∧ c3.isDigit ∧ c4.isDigit then
      some (digitVal c1 * 1000 + digitVal c2 * 100 + digitVal c3 * 10 + digitVal c4, rest)
    else none
  | _ => none

/-- A one-or-two digit numeric field (`%m`, `%d`, `%H`, `%M`, `%S`): the
two-digit alternatives accept exactly the values in `[lo2, hi2]`, the single
digit alternative accepts digits `>= lo1`.  Since the field is always followed
by a non-digit literal in this format, taking two digits whenever two digits
are present is equivalent to the regex's backtracking. -/
def parse2or1 (lo2 hi2 lo1 : Nat) : List Char → Option (Nat × List Char)
  | c1 :: c2 :: rest =>
    if c1.isDigit then
      if c2.isDigit then
        let v := digitVal c1 * 10 + digitVal c2
        if lo2 ≤ v ∧ v ≤ hi2 then some (v, rest) else none
      else
        if lo1 ≤ digitVal c1 then some (digitVal c1, c2 :: rest) else none
    else none
  | [c1] =>
    if c1.isDigit ∧ lo1 ≤ digitVal c1 then some (digitVal c1, []) else none
  | [] => none

/-- A literal character of the format string. -/
def parseLit (c : Char) : List Char → Option (List Char)
  | c' :: rest => if c' = c then some rest else none
  | [] => none

/-- The literal space of the format string, compiled by `_strptime` to `\s+`:
one or more whitespace characters (greedy; the next field starts with a digit,
so maximal munch equals the regex semantics). -/
def parseWs (cs : List Char) : Option (List Char) :=
  match cs with
  | c :: rest => if isPySpace c then some (rest.dropWhile isPySpace) else none
  | [] => none

def digitsToNat (ds : List Char) : Nat :=
  ds.foldl (fun acc c => acc * 10 + digitVal c) 0

/-- `%f`: one to six digits, greedy; the value is padded to microseconds
(`s += "0" * (6 - len(s))`). -/
def parseFrac (cs : List Char) : Option (Nat × List Char) :=
  let ds := (cs.takeWhile Char.isDigit).take 6
  if ds.isEmpty then none
  else some (digitsToNat ds * 10 ^ (6 - ds.length), cs.drop ds.length)

def isLeapYear (y : Nat) : Bool := y % 4 = 0 ∧ (y % 100 ≠ 0 ∨ y % 400 = 0)

def daysInMonth (y m : Nat) : Nat :=
  if m = 2 then (if isLeapYear y then 29 else 28)
  else if m = 4 ∨ m = 6 ∨ m = 9 ∨ m = 11 then 30
  else 31

/-- `datetime.strptime(s, "%Y+%m+%d %H:%M:%S.%f")`: `none` models the
`ValueError` (the `InvalidTimestampFormat` failure of the spec). -/
def parseTimestamp (s : String) : Option Timestamp :=
  match parse4Digits s.data with
  | none => none
  | some (y, r1) =>
    match parseLit '+' r1 with
    | none => none
    | some r2 =>
      match parse2or1 1 12 1 r2 with
      | none => none
      | some (mo, r3) =>
        match parseLit '+' r3 with
        | none => none
        | some r4 =>
          match parse2or1 1 31 1 r4 with
          | none => none
          | some (d, r5) =>
            match parseWs r5 with
            | none => none
            | some r6 =>
              match parse2or1 0 23 0 r6 with
              | none => none
              | some (h, r7) =>
                match parseLit ':' r7 with
                | none => none
                | some r8 =>
                  match parse2or1 0 59 0 r8 with
                  | none => none
                  | some (mi, r9) =>
                    match parseLit ':' r9 with
                    | none => none
                    | some r10 =>
                      match parse2or1 0 61 0 r10 with
                      | none => none
                      | some (sec, r11) =>
                        match parseLit '.' r11 with
                        | none => none
                        | some r12 =>
                          match parseFrac r12 with
                          | none => none
                          | some (us, r13) =>
                            if r13 = [] ∧ 1 ≤ y ∧ d ≤ daysInMonth y mo ∧ sec ≤ 59
                            then some ⟨y, mo, d, h, mi, sec, us⟩
                            else none

/-- The spec's wire-format exemplar `YYYY+MM+DD HH:MM:SS.ffffff`, read as a
fixed-width pattern denoting a valid date and time: exactly 26 characters,
digits in the digit positions, and field values that form a real calendar
datetime. -/
def matchesWireFormat (s : String) : Bool :=
  match s.data with
  | [y1, y2, y3, y4, p1, m1, m2, p2, d1, d2, sp, h1, h2, c1, n1, n2, c2, s1, s2, dot,
     f1, f2, f3, f4, f5, f6] =>
    p1 = '+' ∧ p2 = '+' ∧ sp = ' ' ∧ c1 = ':' ∧ c2 = ':' ∧ dot = '.' ∧
    y1.isDigit ∧ y2.isDigit ∧ y3.isDigit ∧ y4.isDigit ∧
    m1.isDigit ∧ m2.isDigit ∧ d1.isDigit ∧ d2.isDigit ∧
    h1.isDigit ∧ h2.isDigit ∧ n1.isDigit ∧ n2.isDigit ∧
    s1.isDigit ∧ s2.isDigit ∧
    f1.isDigit ∧ f2.isDigit ∧ f3.isDigit ∧ f4.isDigit ∧ f5.isDigit ∧ f6.isDigit ∧
    1 ≤ digitVal y1 * 1000 + digitVal y2 * 100 + digitVal y3 * 10 + digitVal y4 ∧
    1 ≤ digitVal m1 * 10 + digitVal m2 ∧ digitVal m1 * 10 + digitVal m2 ≤ 12 ∧
    1 ≤ digitVal d1 * 10 + digitVal d2 ∧
    digitVal d1 * 10 + digitVal d2 ≤
      daysInMonth (digitVal y1 * 1000 + digitVal y2 * 100 + digitVal y3 * 10 + digitVal y4)
        (digitVal m1 * 10 + digitVal m2) ∧
    digitVal h1 * 10 + digitVal h2 ≤ 23 ∧
    digitVal n1 * 10 + digitVal n2 ≤ 59 ∧
    digitVal s1 * 10 + digitVal s2 ≤ 59
  | _ => false

/-! ## `str.splitlines()`

Python's universal line splitting: boundaries are `\n`, `\r`, `\r\n`, `\v`,
`\f`, `\x1c`, `\x1d`, `\x1e`, `\x85`, `\u2028`, `\u2029`; a trailing boundary
does not produce a trailing empty line. -/

def isLineBreak (c : Char) : Bool :=
  c = '\n' ∨ c = '\r' ∨ c = '\x0b' ∨ c = '\x0c' ∨ c = '\x1c' ∨ c = '\x1d' ∨
  c = '\x1e' ∨ c = '\x85' ∨ c = '\u2028' ∨ c = '\u2029'

def splitlinesAux : List Char → List Char → List String
  | [], acc => if acc.isEmpty then [] else [String.mk acc.reverse]
  | '\r' :: '\n' :: rest, acc => String.mk acc.reverse :: splitlinesAux rest []
  | c :: rest, acc =>
    if isLineBreak c then String.mk acc.reverse :: splitlinesAux rest []
    else splitlinesAux rest (c :: acc)

def splitlines (s : String) : List String := splitlinesAux s.data []

/-! ## The device configuration archive

`device.configurations` is a Python `dict` keyed by `datetime`: modelled as an
insertion-ordered association list.  Assigning to an existing key replaces the
value in place; assigning a fresh key appends. -/

abbrev ConfigDict := List (Timestamp × String)

def dictInsert : ConfigDict → Timestamp → String → ConfigDict
  | [], t, x => [(t, x)]
  | (t', x') :: rest, t, x =>
    if t' = t then (t', x) :: rest else (t', x') :: dictInsert rest t x

/-- `device.configurations[t]`: `none` models the `KeyError` (the
`SnapshotNotFound` failure of the spec). -/
def dictLookup : ConfigDict → Timestamp → Option String
  | [], _ => none
  | (t', x') :: rest, t => if t' = t then some x' else dictLookup rest t

/-- The per-device state the archive operations touch. -/
structure DeviceState where
  configurations : ConfigDict
  current_configuration : Option String
deriving DecidableEq, Repr

def emptyDevice : DeviceState := ⟨[], none⟩

/-- The archive write of `update_database_configurations_from_git`
(lines 102-106): `device.current_configuration = device.configurations[time] = f.read()`. -/
def record (dev : DeviceState) (time : Timestamp) (text : String) : DeviceState :=
  { configurations := dictInsert dev.configurations time text
    current_configuration := some text }

/-- `clear_configurations` (lines 134-135): `device.configurations = {}`
(and nothing else). -/
def clearConfigurations (dev : DeviceState) : DeviceState :=
  { dev with configurations := [] }

/-- Modelled from the spec: `list_timestamps(device_id)` ("the ordered sequence
of all recorded timestamps for a device, ascending") has no counterpart in the
observed source (`src/` only exposes the raw mapping via `get_configurations`);
here it is the ordered key sequence of the mapping. -/
def listTimestamps (dev : DeviceState) : List Timestamp :=
  dev.configurations.map Prod.fst

/-! ## difflib.SequenceMatcher

`SequenceMatcher(None, first, second)` with the default `autojunk=True`.
-/

/-- `__chain_b`: `b2j[x]` is the ascending list of positions of `x` in `b`;
when `autojunk` applies (`len(b) >= 200`), elements occurring more than
`len(b) // 100 + 1` times are "popular" and deleted from `b2j` (with
`isjunk=None` the junk set `bjunk` is empty). -/
def b2j (b : List String) (x : String) : List Nat :=
  if 200 ≤ b.length ∧ b.length / 100 + 1 < b.count x then []
  else (List.range b.length).filter (fun j => b.getD j "" = x)

/-- One candidate of the inner loop of `find_longest_match`:
`k = newj2len[j] = j2len.get(j-1, 0) + 1` (the Python `j2len[-1]` default
is 0, hence the case split on `j`). -/
def chainLen (old : Nat → Nat) (j : Nat) : Nat :=
  match j with
  | 0 => 1
  | j' + 1 => old j' + 1

/-- The body of the inner `for j in ...` loop of `find_longest_match`:
`newj2len[j] = k` and `if k > bestsize: besti, bestj, bestsize = i-k+1, j-k+1, k`. -/
def innerUpd (old : Nat → Nat) (i : Nat) (acc : (Nat → Nat) × (Nat × Nat × Nat)) (j : Nat) :
    (Nat → Nat) × (Nat × Nat × Nat) :=
  let k := chainLen old j
  ((fun x => if x = j then k else acc.1 x),
    if acc.2.2.2 < k then (i + 1 - k, j + 1 - k, k) else acc.2)

/-- The inner `for j in b2j.get(a[i], nothing)` loop of `find_longest_match`
for one outer index `i`: folds over the (ascending) candidate positions,
building the fresh `newj2len` and updating the running best on strict
improvement (`if k > bestsize`). -/
def innerStep (old : Nat → Nat) (i : Nat) (best : Nat × Nat × Nat) (js : List Nat) :
    (Nat → Nat) × (Nat × Nat × Nat) :=
  js.foldl (innerUpd old i) ((fun _ => 0), best)

/-- The two nested loops of `find_longest_match` (before the extension
phase): outer loop over `i in range(alo, ahi)`, with `j2len` replaced by the
fresh `newj2len` after every outer iteration.  The `j < blo: continue` /
`j >= bhi: break` tests are the filter (the `b2j` lists are ascending). -/
def outerUpd (a b : List String) (blo bhi : Nat)
    (st : (Nat → Nat) × (Nat × Nat × Nat)) (i : Nat) : (Nat → Nat) × (Nat × Nat × Nat) :=
  innerStep st.1 i st.2
    ((b2j b (a.getD i "")).filter (fun j => decide (blo ≤ j) && decide (j < bhi)))

def flmLoop (a b : List String) (alo ahi blo bhi : Nat) : (Nat → Nat) × (Nat × Nat × Nat) :=
  (List.range' alo (ahi - alo)).foldl (outerUpd a b blo bhi) ((fun _ => 0), (alo, blo, 0))

/-- The backward extension loop
`while besti > alo and bestj > blo and a[besti-1] == b[bestj-1]`:
its iteration count is the longest run of equal elements immediately before
the match, capped by the distances to `alo`/`blo`. -/
def extendBack (a b : List String) (alo blo besti bestj : Nat) : Nat :=
  ((List.range (min (besti - alo) (bestj - blo))).takeWhile
    (fun t => a.getD (besti - 1 - t) "" = b.getD (bestj - 1 - t) "")).length

/-- The forward extension loop
`while besti+bestsize < ahi and bestj+bestsize < bhi and
a[besti+bestsize] == b[bestj+bestsize]`. -/
def extendFwd (a b : List String) (ahi bhi ei ej : Nat) : Nat :=
  ((List.range (min (ahi - ei) (bhi - ej))).takeWhile
    (fun t => a.getD (ei + t) "" = b.getD (ej + t) "")).length

/-- `find_longest_match(alo, ahi, blo, bhi)`.  The two junk extension loops of
the source are omitted: with `isjunk=None` the set `bjunk` is empty, so their
`isbjunk(...)` guards are always false and they never run. -/
def findLongestMatch (a b : List String) (alo ahi blo bhi : Nat) : Nat × Nat × Nat :=
  let best := (flmLoop a b alo ahi blo bhi).2
  let (besti, bestj, bestsize) := best
  let e1 := extendBack a b alo blo besti bestj
  let (besti, bestj, bestsize) := (besti - e1, bestj - e1, bestsize + e1)
  let e2 := extendFwd a b ahi bhi (besti + bestsize) (bestj + bestsize)
  (besti, bestj, bestsize + e2)

/-- The queue-based divide and conquer of `get_matching_blocks`, written
recursively (the queue discipline plus the final `sort()` produce the blocks
of the left subproblem, then the found match, then the right subproblem; the
recursion is fuelled, `fuel >= ahi - alo` being sufficient since each
subproblem is strictly narrower in the `a`-range). -/
def matchingBlocksAux (a b : List String) : Nat → Nat → Nat → Nat → Nat → List (Nat × Nat × Nat)
  | 0, _, _, _, _ => []
  | fuel + 1, alo, ahi, blo, bhi =>
    let m := findLongestMatch a b alo ahi blo bhi
    let (i, j, k) := m
    if k = 0 then []
    else
      (if alo < i ∧ blo < j then matchingBlocksAux a b fuel alo i blo j else []) ++
      [m] ++
      (if i + k < ahi ∧ j + k < bhi then matchingBlocksAux a b fuel (i + k) ahi (j + k) bhi
       else [])

/-- The adjacent-block collapse of `get_matching_blocks` (accumulator
`(i1, j1, k1)` starting from `(0, 0, 0)`; an adjacent block extends it, a
non-adjacent one flushes it when nonempty). -/
def collapseGo : Nat → Nat → Nat → List (Nat × Nat × Nat) → List (Nat × Nat × Nat)
  | i1, j1, k1, [] => if k1 ≠ 0 then [(i1, j1, k1)] else []
  | i1, j1, k1, (i2, j2, k2) :: rest =>
    if i1 + k1 = i2 ∧ j1 + k1 = j2 then collapseGo i1 j1 (k1 + k2) rest
    else (if k1 ≠ 0 then [(i1, j1, k1)] else []) ++ collapseGo i2 j2 k2 rest

/-- `get_matching_blocks()`: divide and conquer, collapse, and the terminating
sentinel `(len(a), len(b), 0)`. -/
def getMatchingBlocks (a b : List String) : List (Nat × Nat × Nat) :=
  collapseGo 0 0 0 (matchingBlocksAux a b (a.length + 1) 0 a.length 0 b.length) ++
    [(a.length, b.length, 0)]

/-- One entry of `get_opcodes()`. -/
structure Opcode where
  tag : String
  a_start : Nat
  a_end : Nat
  b_start : Nat
  b_end : Nat
deriving DecidableEq, Repr

/-- The loop of `get_opcodes()`: cursor `(i, j)` starts at `(0, 0)`; before
each matching block a `replace`/`delete`/`insert` opcode covers the skipped
material, and each nonempty block yields an `equal` opcode. -/
def opcodesFromBlocks : Nat → Nat → List (Nat × Nat × Nat) → List Opcode
  | _, _, [] => []
  | i, j, (ai, bj, size) :: rest =>
    (if i < ai ∧ j < bj then [⟨"replace", i, ai, j, bj⟩]
     else if i < ai then [⟨"delete", i, ai, j, bj⟩]
     else if j < bj then [⟨"insert", i, ai, j, bj⟩]
     else []) ++
    (if size ≠ 0 then [⟨"equal", ai, ai + size, bj, bj + size⟩] else []) ++
    opcodesFromBlocks (ai + size) (bj + size) rest

/-- `SequenceMatcher(None, a, b).get_opcodes()`. -/
def getOpcodes (a b : List String) : List Opcode :=
  opcodesFromBlocks 0 0 (getMatchingBlocks a b)

/-! ## The diff engine -/

inductive DiffError where
  | invalidTimestampFormat
  | snapshotNotFound
deriving DecidableEq, Repr

structure DiffResult where
  first : List String
  second : List String
  opcodes : List Opcode
deriving DecidableEq, Repr

/-- `get_configuration_diff` (lines 77-83).  The two `strptime` calls run
first (`v1` then `v2`, a `ValueError` modelled as `invalidTimestampFormat`);
then the two dictionary subscripts (a `KeyError` modelled as
`snapshotNotFound`); then splitlines and the opcodes. -/
def get_configuration_diff (dev : DeviceState) (v1 v2 : String) :
    Except DiffError DiffResult :=
  match parseTimestamp v1 with
  | none => .error .invalidTimestampFormat
  | some d1 =>
    match parseTimestamp v2 with
    | none => .error .invalidTimestampFormat
    | some d2 =>
      match dictLookup dev.configurations d1 with
      | none => .error .snapshotNotFound
      | some t1 =>
        match dictLookup dev.configurations d2 with
        | none => .error .snapshotNotFound
        | some t2 =>
          let first := splitlines t1
          let second := splitlines t2
          .ok ⟨first, second, getOpcodes first second⟩

/-- The dictionary subscript `device.configurations[t]` as a fallible read:
the spec's `get`, with the `KeyError` surfaced as `SnapshotNotFound`. -/
def getConfiguration (dev : DeviceState) (t : Timestamp) : Except DiffError String :=
  match dictLookup dev.configurations t with
  | none => .error .snapshotNotFound
  | some x => .ok x

/-! ## Dictionary lemmas -/

theorem dictLookup_insert_self (d : ConfigDict) (t : Timestamp) (x : String) :
    dictLookup (dictInsert d t x) t = some x := by
  induction d with
  | nil => simp [dictInsert, dictLookup]
  | cons hd tl ih =>
    obtain ⟨t', x'⟩ := hd
    by_cases h : t' = t
    · simp [dictInsert, dictLookup, h]
    · simp [dictInsert, dictLookup, h, ih]

theorem dictLookup_insert_ne (d : ConfigDict) (t t' : Timestamp) (x : String)
    (h : t' ≠ t) : dictLookup (dictInsert d t x) t' = dictLookup d t' := by
  have ht : t ≠ t' := fun hh => h hh.symm
  induction d with
  | nil => simp [dictInsert, dictLookup, ht]
  | cons hd tl ih =>
    obtain ⟨t'', x''⟩ := hd
    by_cases h2 : t'' = t
    · subst h2
      simp [dictInsert, dictLookup, ht]
    · by_cases h3 : t'' = t'
      · subst h3
        simp [dictInsert, dictLookup, h2]
      · simp [dictInsert, dictLookup, h2, h3, ih]

/-! ## Archive claims -/

/-- **C2.** For every device, timestamp and configuration text,
`record(D, t, x)` followed by `get(D, t)` returns exactly `x`. -/
theorem record_then_get (dev : DeviceState) (t : Timestamp) (x : String) :
    getConfiguration (record dev t x) t = .ok x := by
  simp [getConfiguration, record, dictLookup_insert_self]

def ts1 : Timestamp := ⟨2019, 1, 1, 0, 0, 0, 0⟩
def ts2 : Timestamp := ⟨2019, 1, 2, 0, 0, 0, 0⟩

/-- **C4, counterexample.** Recording twice at the same timestamp does not
fail and does not leave the archive unchanged: the second `record` silently
replaces the stored snapshot (`device.configurations[time] = f.read()` is a
plain dictionary assignment), so after `record(t, "a"); record(t, "b")` the
archive stores `"b"` at `t`, not `"a"`. -/
theorem record_duplicate_not_rejected :
    (record (record emptyDevice ts1 "a") ts1 "b").configurations = [(ts1, "b")] ∧
    (record emptyDevice ts1 "a").configurations = [(ts1, "a")] ∧
    getConfiguration (record (record emptyDevice ts1 "a") ts1 "b") ts1 = .ok "b" := by
  decide

/-- **C4, amended.** `record(D, t, x)` when a snapshot already exists at `t`
does not fail: it overwrites the snapshot at `t` in place (the key keeps its
position), updates the current-configuration view to `x`, and leaves every
other timestamp's snapshot unchanged. -/
theorem record_duplicate_overwrites (dev : DeviceState) (t : Timestamp) (x y : String)
    (h : dictLookup dev.configurations t = some y) :
    getConfiguration (record dev t x) t = .ok x ∧
    (record dev t x).current_configuration = some x ∧
    ∀ t', t' ≠ t →
      dictLookup (record dev t x).configurations t' = dictLookup dev.configurations t' := by
  refine ⟨?_, rfl, ?_⟩
  · simp [getConfiguration, record, dictLookup_insert_self]
  · intro t' ht
    simp [record, dictLookup_insert_ne _ _ _ _ ht]

theorem record_duplicate_overwrites_witness :
    dictLookup (record emptyDevice ts1 "a").configurations ts1 = some "a" ∧
    (getConfiguration (record (record emptyDevice ts1 "a") ts1 "b") ts1 = .ok "b" ∧
      (record (record emptyDevice ts1 "a") ts1 "b").current_configuration = some "b" ∧
      ∀ t', t' ≠ ts1 →
        dictLookup (record (record emptyDevice ts1 "a") ts1 "b").configurations t' =
          dictLookup (record emptyDevice ts1 "a").configurations t') :=
  ⟨by decide, record_duplicate_overwrites (record emptyDevice ts1 "a") ts1 "b" "a" (by decide)⟩

/-- **C5, counterexample.** `clear(D)` empties the mapping but does not clear
the current-configuration view: after `record(t, "a"); clear()` the view still
holds `"a"` while the mapping is empty, so the "pointer references an existing
entry" invariant is violated and the current view is not empty/undefined. -/
theorem clear_leaves_stale_current :
    (clearConfigurations (record emptyDevice ts1 "a")).configurations = [] ∧
    (clearConfigurations (record emptyDevice ts1 "a")).current_configuration = some "a" := by
  decide

/-- **C5, amended.** `record` keeps the current-configuration view equal to
the text of the snapshot just recorded — which is present in the mapping
immediately after the `record` — but `clear` empties the mapping *without*
touching the view, so after `clear` the view retains the stale text of the
last recorded snapshot. -/
theorem current_configuration_behavior (dev : DeviceState) (t : Timestamp) (x : String) :
    ((record dev t x).current_configuration = some x ∧
      dictLookup (record dev t x).configurations t = some x) ∧
    (clearConfigurations dev).configurations = [] ∧
    (clearConfigurations dev).current_configuration = dev.current_configuration :=
  ⟨⟨rfl, by simp [record, dictLookup_insert_self]⟩, rfl, rfl⟩

/-- **C9.** After `clear(D)`, `get(D, t)` fails with `SnapshotNotFound` for
every previously recorded timestamp `t`, and `list_timestamps(D)` is empty. -/
theorem clear_then_get_fails (dev : DeviceState) (t : Timestamp)
    (h : t ∈ listTimestamps dev) :
    getConfiguration (clearConfigurations dev) t = .error .snapshotNotFound ∧
    listTimestamps (clearConfigurations dev) = [] := by
  exact ⟨rfl, rfl⟩

theorem clear_then_get_fails_witness :
    ts1 ∈ listTimestamps (record emptyDevice ts1 "a") ∧
    (getConfiguration (clearConfigurations (record emptyDevice ts1 "a")) ts1 =
        .error .snapshotNotFound ∧
      listTimestamps (clearConfigurations (record emptyDevice ts1 "a")) = []) :=
  ⟨by decide, clear_then_get_fails (record emptyDevice ts1 "a") ts1 (by decide)⟩

/-- The device of the spec's concrete scenario: snapshots recorded at two
wire-format timestamps (the spec's symbolic labels `T1`, `T2`; the literal
strings `"T1"`, `"T2"` are not in the wire format and would be rejected by
the timestamp parsing, see the `InvalidTimestampFormat` theorem). -/
def devC1 : DeviceState :=
  record (record emptyDevice ts1 "interface eth0\nip 1.1.1.1\n")
    ts2 "interface eth0\nip 1.1.1.2\n"

/-- **C1.** The concrete scenario: after recording the two snapshots,
`diff(7, T1, T2)` returns `first_lines = ["interface eth0", "ip 1.1.1.1"]`,
`second_lines = ["interface eth0", "ip 1.1.1.2"]` and opcodes exactly
`[("equal",0,1,0,1), ("replace",1,2,1,2)]`. -/
theorem concrete_scenario_diff :
    get_configuration_diff devC1 "2019+01+01 00:00:00.000000" "2019+01+02 00:00:00.000000" =
      .ok ⟨["interface eth0", "ip 1.1.1.1"], ["interface eth0", "ip 1.1.1.2"],
        [⟨"equal", 0, 1, 0, 1⟩, ⟨"replace", 1, 2, 1, 2⟩]⟩ := by
  decide

/-! ## Error-handling claims -/

theorem isPySpace_of_isDigit (c : Char) (h : c.isDigit = true) : isPySpace c = false := by
  have hle : c ≤ '9' := by
    have := h
    unfold Char.isDigit at this
    simp only [Bool.and_eq_true, decide_eq_true_eq] at this
    exact this.2
  have hge : '0' ≤ c := by
    have := h
    unfold Char.isDigit at this
    simp only [Bool.and_eq_true, decide_eq_true_eq] at this
    exact this.1
  unfold isPySpace
  rw [decide_eq_false_iff_not]
  rintro (rfl | rfl | rfl | rfl | rfl | rfl | rfl | rfl | rfl | rfl | rfl | rfl | rfl |
    ⟨hlo, hhi⟩ | rfl | rfl | rfl | rfl | rfl) <;>
    first
      | exact absurd h (by decide)
      | exact absurd (le_trans hlo hle) (by decide)

theorem daysInMonth_le_31 (y m : Nat) : daysInMonth y m ≤ 31 := by
  unfold daysInMonth
  split <;> [skip; split] <;> first | omega | (split <;> omega)

/-- **C6.** `get` at an absent timestamp fails with `SnapshotNotFound` and
never returns a nearest match (a successful `get` is always the exact stored
entry), and `diff` propagates `SnapshotNotFound` whenever either (well-formed)
timestamp has no snapshot. -/
theorem snapshot_not_found_propagation :
    (∀ dev t, dictLookup dev.configurations t = none →
      getConfiguration dev t = .error .snapshotNotFound) ∧
    (∀ dev t x, getConfiguration dev t = .ok x →
      dictLookup dev.configurations t = some x) ∧
    (∀ dev v1 v2 d1 d2, parseTimestamp v1 = some d1 → parseTimestamp v2 = some d2 →
      (dictLookup dev.configurations d1 = none ∨ dictLookup dev.configurations d2 = none) →
      get_configuration_diff dev v1 v2 = .error .snapshotNotFound) := by
  refine ⟨?_, ?_, ?_⟩
  · intro dev t h
    simp [getConfiguration, h]
  · intro dev t x h
    unfold getConfiguration at h
    cases hl : dictLookup dev.configurations t with
    | none => rw [hl] at h; exact absurd h (by simp)
    | some y =>
      rw [hl] at h
      simp only [Except.ok.injEq] at h
      subst h
      rfl
  · intro dev v1 v2 d1 d2 h1 h2 h3
    rcases h3 with h3 | h3
    · simp only [get_configuration_diff, h1, h2, h3]
    · cases hl : dictLookup dev.configurations d1 with
      | none => simp only [get_configuration_diff, h1, h2, hl]
      | some y => simp only [get_configuration_diff, h1, h2, hl, h3]

/-- **C6, witness**: the spec's concrete scenario, `diff(7, T1, T3)` with `T3`
never recorded fails with `SnapshotNotFound`. -/
theorem snapshot_not_found_propagation_witness :
    parseTimestamp "2019+01+01 00:00:00.000000" = some ts1 ∧
    parseTimestamp "2019+01+03 00:00:00.000000" = some ⟨2019, 1, 3, 0, 0, 0, 0⟩ ∧
    dictLookup devC1.configurations ⟨2019, 1, 3, 0, 0, 0, 0⟩ = none ∧
    get_configuration_diff devC1 "2019+01+01 00:00:00.000000" "2019+01+03 00:00:00.000000" =
      .error .snapshotNotFound :=
  ⟨by decide, by decide, by decide,
    snapshot_not_found_propagation.2.2 devC1 _ _ ts1 ⟨2019, 1, 3, 0, 0, 0, 0⟩
      (by decide) (by decide) (Or.inr (by decide))⟩

/-- **C7.** Timestamp strings the format rejects make `diff` fail explicitly
with `InvalidTimestampFormat` (whichever of the two arguments is malformed) —
there is no silent fallback to a default timestamp — and every string matching
the wire-format pattern `YYYY+MM+DD HH:MM:SS.ffffff` parses successfully. -/
theorem invalid_timestamp_format :
    (∀ dev v1 v2, parseTimestamp v1 = none →
      get_configuration_diff dev v1 v2 = .error .invalidTimestampFormat) ∧
    (∀ dev v1 v2 d1, parseTimestamp v1 = some d1 → parseTimestamp v2 = none →
      get_configuration_diff dev v1 v2 = .error .invalidTimestampFormat) ∧
    (∀ s, matchesWireFormat s = true → (parseTimestamp s).isSome = true) := by
  refine ⟨?_, ?_, ?_⟩
  · intro dev v1 v2 h
    simp only [get_configuration_diff, h]
  · intro dev v1 v2 d1 h1 h2
    simp only [get_configuration_diff, h1, h2]
  · intro s h
    unfold matchesWireFormat at h
    rcases hd : s.data with _ | ⟨y1, _ | ⟨y2, _ | ⟨y3, _ | ⟨y4, _ | ⟨p1, _ | ⟨m1, _ | ⟨m2,
      _ | ⟨p2, _ | ⟨d1, _ | ⟨d2, _ | ⟨sp, _ | ⟨h1, _ | ⟨h2, _ | ⟨c1, _ | ⟨n1, _ | ⟨n2,
      _ | ⟨c2, _ | ⟨s1c, _ | ⟨s2c, _ | ⟨dot, _ | ⟨f1, _ | ⟨f2, _ | ⟨f3, _ | ⟨f4,
      _ | ⟨f5, _ | ⟨f6, rest⟩⟩⟩⟩⟩⟩⟩⟩⟩⟩⟩⟩⟩⟩⟩⟩⟩⟩⟩⟩⟩⟩⟩⟩⟩⟩ <;>
      rw [hd] at h <;>
      first
        | exact Bool.noConfusion h
        | skip
    cases rest with
    | cons c27 rest2 => exact Bool.noConfusion h
    | nil =>
      simp only [decide_eq_true_eq] at h
      obtain ⟨hp1, hp2, hsp, hc1, hc2, hdot, hy1, hy2, hy3, hy4, hm1, hm2, hd1, hd2,
        hh1, hh2, hn1, hn2, hs1, hs2, hf1, hf2, hf3, hf4, hf5, hf6,
        hylo, hmlo, hmhi, hdlo, hdhi, hhhi, hnhi, hshi⟩ := h
      subst hp1; subst hp2; subst hsp; subst hc1; subst hc2; subst hdot
      have hws1 : isPySpace h1 = false := isPySpace_of_isDigit _ hh1
      have hd31 : digitVal d1 * 10 + digitVal d2 ≤ 31 :=
        le_trans hdhi (daysInMonth_le_31 _ _)
      have hs61 : digitVal s1c * 10 + digitVal s2c ≤ 61 := le_trans hshi (by norm_num)
      have hspc : isPySpace ' ' = true := by decide
      unfold parseTimestamp
      rw [hd]
      simp [parse4Digits, parse2or1, parseLit, parseWs, parseFrac,
        hy1, hy2, hy3, hy4, hm1, hm2, hd1, hd2, hh1, hh2, hn1, hn2, hs1, hs2,
        hf1, hf2, hf3, hf4, hf5, hf6, hylo, hmlo, hmhi, hdlo, hd31, hhhi, hnhi, hshi,
        hs61, hws1, hspc, hdhi]

theorem invalid_timestamp_format_witness :
    get_configuration_diff devC1 "T1" "T2" = .error .invalidTimestampFormat ∧
    matchesWireFormat "2019+01+01 00:00:00.000000" = true ∧
    (parseTimestamp "2019+01+01 00:00:00.000000").isSome = true :=
  ⟨invalid_timestamp_format.1 devC1 "T1" "T2" (by decide), by decide,
    invalid_timestamp_format.2.2 _ (by decide)⟩

/-! ## Partition property of the diff opcodes (C3) -/

theorem length_takeWhile_le {α : Type} (p : α → Bool) (l : List α) :
    (l.takeWhile p).length ≤ l.length := by
  induction l with
  | nil => simp
  | cons a l ih =>
    rw [List.takeWhile_cons]
    split
    · simp only [List.length_cons]; omega
    · simp

/-- The bounds a match produced for the subproblem
`[alo, ahi) × [blo, bhi)` must satisfy. -/
def BestBounded (alo ahi blo bhi : Nat) (best : Nat × Nat × Nat) : Prop :=
  alo ≤ best.1 ∧ best.1 + best.2.2 ≤ ahi ∧ blo ≤ best.2.1 ∧ best.2.1 + best.2.2 ≤ bhi

theorem innerUpd_foldl_inv (old : Nat → Nat) (s alo ahi blo bhi : Nat)
    (hs : alo ≤ s) (hsa : s < ahi)
    (holds : ∀ j, old j ≤ s - alo)
    (hold2 : ∀ j, old j ≠ 0 → blo + old j ≤ j + 1) :
    ∀ (js : List Nat), (∀ j ∈ js, blo ≤ j ∧ j < bhi) →
      ∀ (acc : (Nat → Nat) × (Nat × Nat × Nat)),
        (∀ j, acc.1 j ≤ s + 1 - alo) →
        (∀ j, acc.1 j ≠ 0 → blo + acc.1 j ≤ j + 1) →
        BestBounded alo ahi blo bhi acc.2 →
        (∀ j, (js.foldl (innerUpd old s) acc).1 j ≤ s + 1 - alo) ∧
        (∀ j, (js.foldl (innerUpd old s) acc).1 j ≠ 0 →
          blo + (js.foldl (innerUpd old s) acc).1 j ≤ j + 1) ∧
        BestBounded alo ahi blo bhi (js.foldl (innerUpd old s) acc).2 := by
  intro js
  induction js with
  | nil => intro _ acc h1 h2 h3; exact ⟨h1, h2, h3⟩
  | cons j js ih =>
    intro hmem acc h1 h2 h3
    have hjb : blo ≤ j ∧ j < bhi := hmem j (List.mem_cons_self _ _)
    have hk1 : chainLen old j ≤ s + 1 - alo := by
      cases j with
      | zero => simp [chainLen]; omega
      | succ j' => have := holds j'; simp [chainLen]; omega
    have hk2 : blo + chainLen old j ≤ j + 1 := by
      cases j with
      | zero => simp [chainLen]; omega
      | succ j' =>
        by_cases hz : old j' = 0
        · simp [chainLen, hz]; omega
        · have := hold2 j' hz; simp [chainLen]; omega
    simp only [List.foldl_cons]
    refine ih (fun x hx => hmem x (List.mem_cons_of_mem _ hx)) _ ?_ ?_ ?_
    · intro x
      by_cases hx : x = j
      · simpa [innerUpd, hx] using hk1
      · simpa [innerUpd, hx] using h1 x
    · intro x hx0
      by_cases hx : x = j
      · subst hx
        simp only [innerUpd] at hx0 ⊢
        simpa using hk2
      · simp only [innerUpd] at hx0 ⊢
        simp only [if_neg hx] at hx0 ⊢
        exact h2 x hx0
    · simp only [innerUpd]
      split
      · obtain ⟨hbl, hbj⟩ := hjb
        refine ⟨?_, ?_, ?_, ?_⟩ <;> simp only [BestBounded] <;> omega
      · exact h3

theorem outerUpd_foldl_inv (a b : List String) (alo ahi blo bhi : Nat) :
    ∀ (n s : Nat) (st : (Nat → Nat) × (Nat × Nat × Nat)),
      alo ≤ s → s + n ≤ ahi →
      (∀ j, st.1 j ≤ s - alo) →
      (∀ j, st.1 j ≠ 0 → blo + st.1 j ≤ j + 1) →
      BestBounded alo ahi blo bhi st.2 →
      BestBounded alo ahi blo bhi
        (((List.range' s n).foldl (outerUpd a b blo bhi) st).2) := by
  intro n
  induction n with
  | zero => intro s st _ _ _ _ h5; exact h5
  | succ n ih =>
    intro s st hs hn h3 h4 h5
    have hstep := innerUpd_foldl_inv st.1 s alo ahi blo bhi hs (by omega) h3 h4
      ((b2j b (a.getD s "")).filter (fun j => decide (blo ≤ j) && decide (j < bhi)))
      (by
        intro j hj
        rw [List.mem_filter] at hj
        have := hj.2
        simp only [Bool.and_eq_true, decide_eq_true_eq] at this
        exact this)
      ((fun _ => 0), st.2) (by intro j; exact Nat.zero_le _) (by intro j hj; exact absurd rfl hj) h5
    show BestBounded alo ahi blo bhi
      (((List.range' (s + 1) n).foldl (outerUpd a b blo bhi) (outerUpd a b blo bhi st s)).2)
    exact ih (s + 1) (outerUpd a b blo bhi st s) (by omega) (by omega)
      (by intro j; have := hstep.1 j; simpa [outerUpd, innerStep] using this)
      (by intro j; have := hstep.2.1 j; simpa [outerUpd, innerStep] using this)
      (by have := hstep.2.2; simpa [outerUpd, innerStep] using this)

theorem extendBack_le (a b : List String) (alo blo bi bj : Nat) :
    extendBack a b alo blo bi bj ≤ min (bi - alo) (bj - blo) := by
  unfold extendBack
  calc _ ≤ (List.range (min (bi - alo) (bj - blo))).length := length_takeWhile_le _ _
    _ = _ := List.length_range _

theorem extendFwd_le (a b : List String) (ahi bhi ei ej : Nat) :
    extendFwd a b ahi bhi ei ej ≤ min (ahi - ei) (bhi - ej) := by
  unfold extendFwd
  calc _ ≤ (List.range (min (ahi - ei) (bhi - ej))).length := length_takeWhile_le _ _
    _ = _ := List.length_range _

/-- `find_longest_match` returns a match inside the requested ranges. -/
theorem findLongestMatch_bounds (a b : List String) (alo ahi blo bhi : Nat)
    (ha : alo ≤ ahi) (hb : blo ≤ bhi) :
    BestBounded alo ahi blo bhi (findLongestMatch a b alo ahi blo bhi) := by
  have hloop : BestBounded alo ahi blo bhi (flmLoop a b alo ahi blo bhi).2 := by
    unfold flmLoop
    apply outerUpd_foldl_inv a b alo ahi blo bhi (ahi - alo) alo
      ((fun _ => 0), (alo, blo, 0)) le_rfl (by omega)
      (by intro j; exact Nat.zero_le _) (by intro j hj; exact absurd rfl hj)
    exact ⟨le_rfl, by simpa using ha, le_rfl, by simpa using hb⟩
  rcases hb2 : (flmLoop a b alo ahi blo bhi).2 with ⟨bi, bj, bk⟩
  rw [hb2] at hloop
  obtain ⟨hb1, hb2', hb3, hb4⟩ := hloop
  simp only at hb1 hb2' hb3 hb4
  unfold findLongestMatch
  rw [hb2]
  have he1 := extendBack_le a b alo blo bi bj
  have he2 := extendFwd_le a b ahi bhi
    (bi - extendBack a b alo blo bi bj + (bk + extendBack a b alo blo bi bj))
    (bj - extendBack a b alo blo bi bj + (bk + extendBack a b alo blo bi bj))
  simp only [BestBounded]
  refine ⟨?_, ?_, ?_, ?_⟩ <;> omega

/-- The blocks of a diff, read left to right, advance monotonically through
`[x, u]` in the first sequence and `[y, v]` in the second: each block starts
at or after the previous block's end. -/
def ChainBetween : Nat → Nat → List (Nat × Nat × Nat) → Nat → Nat → Prop
  | x, y, [], u, v => x ≤ u ∧ y ≤ v
  | x, y, (bi, bj, bk) :: rest, u, v =>
    x ≤ bi ∧ y ≤ bj ∧ ChainBetween (bi + bk) (bj + bk) rest u v

theorem chainBetween_mono (l : List (Nat × Nat × Nat)) :
    ∀ (x y x' y' u v : Nat), x' ≤ x → y' ≤ y →
      ChainBetween x y l u v → ChainBetween x' y' l u v := by
  induction l with
  | nil => intro x y x' y' u v hx hy h; exact ⟨le_trans hx h.1, le_trans hy h.2⟩
  | cons hd tl ih =>
    obtain ⟨bi, bj, bk⟩ := hd
    intro x y x' y' u v hx hy h
    exact ⟨le_trans hx h.1, le_trans hy h.2.1, h.2.2⟩

theorem chainBetween_append (l1 : List (Nat × Nat × Nat)) :
    ∀ (l2 : List (Nat × Nat × Nat)) (x y u v w z : Nat),
      ChainBetween x y l1 u v → ChainBetween u v l2 w z →
      ChainBetween x y (l1 ++ l2) w z := by
  induction l1 with
  | nil =>
    intro l2 x y u v w z h1 h2
    exact chainBetween_mono l2 u v x y w z h1.1 h1.2 h2
  | cons hd tl ih =>
    obtain ⟨bi, bj, bk⟩ := hd
    intro l2 x y u v w z h1 h2
    exact ⟨h1.1, h1.2.1, ih l2 _ _ u v w z h1.2.2 h2⟩

set_option maxHeartbeats 1000000 in
theorem matchingBlocksAux_chain (a b : List String) :
    ∀ (fuel alo ahi blo bhi : Nat), alo ≤ ahi → blo ≤ bhi →
      ChainBetween alo blo (matchingBlocksAux a b fuel alo ahi blo bhi) ahi bhi := by
  intro fuel
  induction fuel with
  | zero => intro alo ahi blo bhi ha hb; exact ⟨ha, hb⟩
  | succ fuel ih =>
    intro alo ahi blo bhi ha hb
    have hbd := findLongestMatch_bounds a b alo ahi blo bhi ha hb
    rcases hm : findLongestMatch a b alo ahi blo bhi with ⟨i, j, k⟩
    rw [hm] at hbd
    obtain ⟨h1, h2, h3, h4⟩ := hbd
    simp only at h1 h2 h3 h4
    simp only [matchingBlocksAux, hm]
    by_cases hk : k = 0
    · rw [if_pos hk]
      exact ⟨ha, hb⟩
    · rw [if_neg hk]
      have hmid : ChainBetween i j
          ((i, j, k) :: (if i + k < ahi ∧ j + k < bhi then
            matchingBlocksAux a b fuel (i + k) ahi (j + k) bhi else [])) ahi bhi := by
        refine ⟨le_rfl, le_rfl, ?_⟩
        by_cases hr : i + k < ahi ∧ j + k < bhi
        · rw [if_pos hr]
          exact ih (i + k) ahi (j + k) bhi (by omega) (by omega)
        · rw [if_neg hr]
          exact ⟨h2, h4⟩
      rw [List.append_assoc, List.singleton_append]
      by_cases hl : alo < i ∧ blo < j
      · rw [if_pos hl]
        exact chainBetween_append _ _ _ _ i j _ _ (ih alo i blo j (by omega) (by omega)) hmid
      · rw [if_neg hl]
        rw [List.nil_append]
        exact ⟨h1, h3, hmid.2.2⟩

theorem collapseGo_chain :
    ∀ (bs : List (Nat × Nat × Nat)) (i1 j1 k1 x y u v : Nat),
      ChainBetween (i1 + k1) (j1 + k1) bs u v → x ≤ i1 → y ≤ j1 →
      ChainBetween x y (collapseGo i1 j1 k1 bs) u v := by
  intro bs
  induction bs with
  | nil =>
    intro i1 j1 k1 x y u v h hx hy
    by_cases hk : k1 ≠ 0
    · simp only [collapseGo, if_pos hk]
      exact ⟨hx, hy, h⟩
    · simp only [collapseGo, if_neg hk]
      push_neg at hk
      refine ⟨?_, ?_⟩ <;> [have := h.1; have := h.2] <;> omega
  | cons hd rest ih =>
    obtain ⟨i2, j2, k2⟩ := hd
    intro i1 j1 k1 x y u v h hx hy
    obtain ⟨ha1, ha2, ha3⟩ := h
    by_cases hadj : i1 + k1 = i2 ∧ j1 + k1 = j2
    · simp only [collapseGo, if_pos hadj]
      apply ih i1 j1 (k1 + k2) x y u v _ hx hy
      have e1 : i1 + (k1 + k2) = i2 + k2 := by omega
      have e2 : j1 + (k1 + k2) = j2 + k2 := by omega
      rw [e1, e2]
      exact ha3
    · simp only [collapseGo, if_neg hadj]
      by_cases hk : k1 ≠ 0
      · rw [if_pos hk, List.cons_append, List.nil_append]
        exact ⟨hx, hy, ih i2 j2 k2 _ _ u v ha3 ha1 ha2⟩
      · rw [if_neg hk, List.nil_append]
        push_neg at hk
        exact ih i2 j2 k2 x y u v ha3 (by omega) (by omega)

/-- The partition property the spec states for opcodes: starting at `(x, y)`,
each opcode begins exactly where the previous one ended in both sequences,
and the last opcode ends at `(u, v)`. -/
def OpcodesPartition : Nat → Nat → List Opcode → Nat → Nat → Prop
  | x, y, [], u, v => x = u ∧ y = v
  | x, y, op :: rest, u, v =>
    op.a_start = x ∧ op.b_start = y ∧ OpcodesPartition op.a_end op.b_end rest u v

theorem opcodesFromBlocks_partition (la lb : Nat) :
    ∀ (bs : List (Nat × Nat × Nat)) (i j : Nat),
      ChainBetween i j bs la lb →
      OpcodesPartition i j (opcodesFromBlocks i j (bs ++ [(la, lb, 0)])) la lb := by
  intro bs
  induction bs with
  | nil =>
    intro i j h
    obtain ⟨hi, hj⟩ : i ≤ la ∧ j ≤ lb := h
    simp only [List.nil_append, opcodesFromBlocks]
    by_cases h1 : i < la ∧ j < lb
    · rw [if_pos h1]
      exact ⟨rfl, rfl, rfl, rfl⟩
    · rw [if_neg h1]
      by_cases h2 : i < la
      · rw [if_pos h2]
        exact ⟨rfl, rfl, rfl, rfl⟩
      · by_cases h3 : j < lb
        · rw [if_neg h2, if_pos h3]
          exact ⟨rfl, rfl, rfl, rfl⟩
        · rw [if_neg h2, if_neg h3]
          exact ⟨by omega, by omega⟩
  | cons hd rest ih =>
    obtain ⟨bi, bj, bk⟩ := hd
    intro i j h
    obtain ⟨hi, hj, hrest⟩ := h
    have htail := ih (bi + bk) (bj + bk) hrest
    rw [List.cons_append]
    simp only [opcodesFromBlocks]
    by_cases h1 : i < bi ∧ j < bj
    · rw [if_pos h1]
      by_cases hkz : bk ≠ 0
      · rw [if_pos hkz]
        exact ⟨rfl, rfl, rfl, rfl, htail⟩
      · rw [if_neg hkz]
        push_neg at hkz
        subst hkz
        exact ⟨rfl, rfl, htail⟩
    · rw [if_neg h1]
      by_cases h2 : i < bi
      · rw [if_pos h2]
        by_cases hkz : bk ≠ 0
        · rw [if_pos hkz]
          exact ⟨rfl, rfl, rfl, rfl, htail⟩
        · rw [if_neg hkz]
          push_neg at hkz
          subst hkz
          exact ⟨rfl, rfl, htail⟩
      · by_cases h3 : j < bj
        · rw [if_neg h2, if_pos h3]
          by_cases hkz : bk ≠ 0
          · rw [if_pos hkz]
            exact ⟨rfl, rfl, rfl, rfl, htail⟩
          · rw [if_neg hkz]
            push_neg at hkz
            subst hkz
            exact ⟨rfl, rfl, htail⟩
        · rw [if_neg h2, if_neg h3]
          have hi2 : i = bi := by omega
          have hj2 : j = bj := by omega
          subst hi2; subst hj2
          by_cases hkz : bk ≠ 0
          · rw [if_pos hkz]
            exact ⟨rfl, rfl, htail⟩
          · rw [if_neg hkz]
            push_neg at hkz
            subst hkz
            simpa using htail

/-- Pre-generate the equational lemmas of the recursive definitions (their
generation needs the bodies to be reducible). -/
theorem matchingBlocksAux_succ_eq (a b : List String) (fuel alo ahi blo bhi : Nat) :
    matchingBlocksAux a b (fuel + 1) alo ahi blo bhi =
      (let m := findLongestMatch a b alo ahi blo bhi
       let (i, j, k) := m
       if k = 0 then []
       else
         (if alo < i ∧ blo < j then matchingBlocksAux a b fuel alo i blo j else []) ++
         [m] ++
         (if i + k < ahi ∧ j + k < bhi then matchingBlocksAux a b fuel (i + k) ahi (j + k) bhi
          else [])) := by
  simp only [matchingBlocksAux]

theorem collapseGo_nil_eq (i1 j1 k1 : Nat) :
    collapseGo i1 j1 k1 [] = if k1 ≠ 0 then [(i1, j1, k1)] else [] := by
  simp only [collapseGo]

theorem opcodesFromBlocks_nil_eq (i j : Nat) : opcodesFromBlocks i j [] = [] := by
  simp only [opcodesFromBlocks]


/-! ## Content correctness of the matches (C10) -/

/-- A matching block `(bi, bj, bk)` really matches: the `bk` elements of `a`
starting at `bi` equal the `bk` elements of `b` starting at `bj`. -/
def MatchEq (a b : List String) : Nat × Nat × Nat → Prop
  | (bi, bj, bk) => ∀ t, t < bk → a.getD (bi + t) "" = b.getD (bj + t) ""

theorem b2j_mem (b : List String) (x : String) (j : Nat) (h : j ∈ b2j b x) :
    b.getD j "" = x := by
  unfold b2j at h
  split at h
  · simp at h
  · rw [List.mem_filter] at h
    simpa using h.2

theorem takeWhile_range_pred (p : Nat → Bool) (n t : Nat)
    (ht : t < ((List.range n).takeWhile p).length) : p t = true := by
  set L := (List.range n).takeWhile p with hL
  have hpre : L <+: List.range n := List.takeWhile_prefix p
  have htake : L = (List.range n).take L.length := List.prefix_iff_eq_take.mp hpre
  have hlen : L.length ≤ n := by
    calc L.length ≤ (List.range n).length := by rw [hL]; exact length_takeWhile_le _ _
      _ = n := List.length_range n
  apply List.mem_takeWhile_imp (l := List.range n)
  show t ∈ L
  rw [htake, List.take_range, Nat.min_eq_left hlen]
  exact List.mem_range.mpr ht

theorem innerUpd_foldl_eq (a b : List String) (old : Nat → Nat) (s alo blo : Nat)
    (hs : alo ≤ s)
    (holdb : ∀ j, old j ≤ s - alo)
    (hold2 : ∀ j, old j ≠ 0 → blo + old j ≤ j + 1)
    (holdeq : ∀ j, old j ≠ 0 → ∀ t, t < old j →
      a.getD (s - 1 - t) "" = b.getD (j - t) "") :
    ∀ (js : List Nat), (∀ j ∈ js, blo ≤ j ∧ b.getD j "" = a.getD s "") →
      ∀ (acc : (Nat → Nat) × (Nat × Nat × Nat)),
        (∀ j, acc.1 j ≤ s + 1 - alo) →
        (∀ j, acc.1 j ≠ 0 → blo + acc.1 j ≤ j + 1) →
        (∀ j, acc.1 j ≠ 0 → ∀ t, t < acc.1 j → a.getD (s - t) "" = b.getD (j - t) "") →
        (∀ t, t < acc.2.2.2 → a.getD (acc.2.1 + t) "" = b.getD (acc.2.2.1 + t) "") →
        (∀ j, (js.foldl (innerUpd old s) acc).1 j ≤ s + 1 - alo) ∧
        (∀ j, (js.foldl (innerUpd old s) acc).1 j ≠ 0 →
          blo + (js.foldl (innerUpd old s) acc).1 j ≤ j + 1) ∧
        (∀ j, (js.foldl (innerUpd old s) acc).1 j ≠ 0 →
          ∀ t, t < (js.foldl (innerUpd old s) acc).1 j →
            a.getD (s - t) "" = b.getD (j - t) "") ∧
        (∀ t, t < (js.foldl (innerUpd old s) acc).2.2.2 →
          a.getD ((js.foldl (innerUpd old s) acc).2.1 + t) "" =
            b.getD ((js.foldl (innerUpd old s) acc).2.2.1 + t) "") := by
  intro js
  induction js with
  | nil => intro _ acc h1 h2 h3 h4; exact ⟨h1, h2, h3, h4⟩
  | cons j js ih =>
    intro hmem acc h1 h2 h3 h4
    obtain ⟨hjb, hjv⟩ := hmem j (List.mem_cons_self _ _)
    have hk1 : chainLen old j ≤ s + 1 - alo := by
      cases j with
      | zero => simp [chainLen]; omega
      | succ j' => have := holdb j'; simp [chainLen]; omega
    have hk2 : blo + chainLen old j ≤ j + 1 := by
      cases j with
      | zero => simp [chainLen]; omega
      | succ j' =>
        by_cases hz : old j' = 0
        · simp [chainLen, hz]; omega
        · have := hold2 j' hz; simp [chainLen]; omega
    have heqk : ∀ t, t < chainLen old j → a.getD (s - t) "" = b.getD (j - t) "" := by
      intro t ht
      cases t with
      | zero => simpa using hjv.symm
      | succ t' =>
        cases j with
        | zero => simp [chainLen] at ht
        | succ j' =>
          simp only [chainLen] at ht
          have hne : old j' ≠ 0 := by omega
          have hind := holdeq j' hne t' (by omega)
          have e1 : s - (t' + 1) = s - 1 - t' := by omega
          have e2 : j' + 1 - (t' + 1) = j' - t' := by omega
          rw [e1, e2]
          exact hind
    simp only [List.foldl_cons]
    refine ih (fun x hx => hmem x (List.mem_cons_of_mem _ hx)) _ ?_ ?_ ?_ ?_
    · intro x
      by_cases hx : x = j
      · simpa [innerUpd, hx] using hk1
      · simpa [innerUpd, hx] using h1 x
    · intro x hx0
      by_cases hx : x = j
      · subst hx
        simp only [innerUpd] at hx0 ⊢
        simpa using hk2
      · simp only [innerUpd] at hx0 ⊢
        simp only [if_neg hx] at hx0 ⊢
        exact h2 x hx0
    · intro x hx0 t ht
      simp only [innerUpd] at hx0 ht
      by_cases hx : x = j
      · subst hx
        rw [if_pos rfl] at ht
        exact heqk t ht
      · rw [if_neg hx] at hx0 ht
        exact h3 x hx0 t ht
    · simp only [innerUpd]
      split
      · intro t ht
        simp only at ht ⊢
        have hks : chainLen old j ≤ s + 1 := by omega
        have hkj : chainLen old j ≤ j + 1 := by omega
        have e1 : s + 1 - chainLen old j + t = s - (chainLen old j - 1 - t) := by omega
        have e2 : j + 1 - chainLen old j + t = j - (chainLen old j - 1 - t) := by omega
        rw [e1, e2]
        exact heqk _ (by omega)
      · exact h4

theorem outerUpd_foldl_eq (a b : List String) (alo blo bhi : Nat) :
    ∀ (n s : Nat) (st : (Nat → Nat) × (Nat × Nat × Nat)),
      alo ≤ s →
      (∀ j, st.1 j ≤ s - alo) →
      (∀ j, st.1 j ≠ 0 → blo + st.1 j ≤ j + 1) →
      (∀ j, st.1 j ≠ 0 → ∀ t, t < st.1 j → a.getD (s - 1 - t) "" = b.getD (j - t) "") →
      (∀ t, t < st.2.2.2 → a.getD (st.2.1 + t) "" = b.getD (st.2.2.1 + t) "") →
      (∀ t, t < ((List.range' s n).foldl (outerUpd a b blo bhi) st).2.2.2 →
        a.getD (((List.range' s n).foldl (outerUpd a b blo bhi) st).2.1 + t) "" =
          b.getD (((List.range' s n).foldl (outerUpd a b blo bhi) st).2.2.1 + t) "") := by
  intro n
  induction n with
  | zero => intro s st _ _ _ _ h5; exact h5
  | succ n ih =>
    intro s st hs hb h2 heq hbest
    have hjs : ∀ j ∈ (b2j b (a.getD s "")).filter
        (fun j => decide (blo ≤ j) && decide (j < bhi)),
        blo ≤ j ∧ b.getD j "" = a.getD s "" := by
      intro j hj
      rw [List.mem_filter] at hj
      refine ⟨?_, b2j_mem b _ j hj.1⟩
      have := hj.2
      simp only [Bool.and_eq_true, decide_eq_true_eq] at this
      exact this.1
    have hstep := innerUpd_foldl_eq a b st.1 s alo blo hs hb h2 heq
      ((b2j b (a.getD s "")).filter (fun j => decide (blo ≤ j) && decide (j < bhi)))
      hjs ((fun _ => 0), st.2)
      (by intro j; exact Nat.zero_le _)
      (by intro j hj; exact absurd rfl hj)
      (by intro j hj; exact absurd rfl hj)
      hbest
    show (∀ t, t < ((List.range' (s + 1) n).foldl (outerUpd a b blo bhi)
        (outerUpd a b blo bhi st s)).2.2.2 → _)
    apply ih (s + 1) (outerUpd a b blo bhi st s) (by omega)
    · intro j
      have := hstep.1 j
      simpa [outerUpd, innerStep] using this
    · intro j hj
      have hj' : (outerUpd a b blo bhi st s).1 j ≠ 0 := hj
      simp only [outerUpd, innerStep] at hj' ⊢
      exact hstep.2.1 j hj'
    · intro j hj t ht
      have hj' : (outerUpd a b blo bhi st s).1 j ≠ 0 := hj
      simp only [outerUpd, innerStep] at hj' ht
      have := hstep.2.2.1 j hj' t ht
      have e1 : s + 1 - 1 - t = s - t := by omega
      rw [e1]
      exact this
    · intro t ht
      simp only [outerUpd, innerStep] at ht ⊢
      exact hstep.2.2.2 t ht

/-- The match returned by `find_longest_match` is a genuine match: the matched
ranges of `a` and `b` are elementwise equal. -/
theorem findLongestMatch_matchEq (a b : List String) (alo ahi blo bhi : Nat)
    (ha : alo ≤ ahi) (hb : blo ≤ bhi) :
    MatchEq a b (findLongestMatch a b alo ahi blo bhi) := by
  have hloop : ∀ t, t < (flmLoop a b alo ahi blo bhi).2.2.2 →
      a.getD ((flmLoop a b alo ahi blo bhi).2.1 + t) "" =
        b.getD ((flmLoop a b alo ahi blo bhi).2.2.1 + t) "" := by
    unfold flmLoop
    apply outerUpd_foldl_eq a b alo blo bhi (ahi - alo) alo
      ((fun _ => 0), (alo, blo, 0)) le_rfl
      (by intro j; exact Nat.zero_le _)
      (by intro j hj; exact absurd rfl hj)
      (by intro j hj; exact absurd rfl hj)
      (by intro t ht; simp at ht)
  have hbounds := findLongestMatch_bounds a b alo ahi blo bhi ha hb
  rcases hb2 : (flmLoop a b alo ahi blo bhi).2 with ⟨bi, bj, bk⟩
  rw [hb2] at hloop
  simp only at hloop
  have hbl : BestBounded alo ahi blo bhi (bi, bj, bk) := by
    have hloopb : BestBounded alo ahi blo bhi (flmLoop a b alo ahi blo bhi).2 := by
      unfold flmLoop
      apply outerUpd_foldl_inv a b alo ahi blo bhi (ahi - alo) alo
        ((fun _ => 0), (alo, blo, 0)) le_rfl (by omega)
        (by intro j; exact Nat.zero_le _) (by intro j hj; exact absurd rfl hj)
      exact ⟨le_rfl, by simpa using ha, le_rfl, by simpa using hb⟩
    rw [hb2] at hloopb
    exact hloopb
  obtain ⟨hbnd1, hbnd2, hbnd3, hbnd4⟩ := hbl
  simp only at hbnd1 hbnd2 hbnd3 hbnd4
  unfold findLongestMatch
  rw [hb2]
  simp only [MatchEq]
  intro t ht
  set e1 := extendBack a b alo blo bi bj with he1
  have he1le := extendBack_le a b alo blo bi bj
  set e2 := extendFwd a b ahi bhi (bi - e1 + (bk + e1)) (bj - e1 + (bk + e1)) with he2
  have hback : ∀ u, u < e1 → a.getD (bi - 1 - u) "" = b.getD (bj - 1 - u) "" := by
    intro u hu
    have := takeWhile_range_pred
      (fun t => decide (a.getD (bi - 1 - t) "" = b.getD (bj - 1 - t) ""))
      (min (bi - alo) (bj - blo)) u (by rw [he1] at hu; exact hu)
    simpa using this
  have hfwd : ∀ u, u < e2 →
      a.getD (bi - e1 + (bk + e1) + u) "" = b.getD (bj - e1 + (bk + e1) + u) "" := by
    intro u hu
    have := takeWhile_range_pred
      (fun t => decide (a.getD (bi - e1 + (bk + e1) + t) "" =
        b.getD (bj - e1 + (bk + e1) + t) ""))
      (min (ahi - (bi - e1 + (bk + e1))) (bhi - (bj - e1 + (bk + e1)))) u
      (by rw [he2] at hu; exact hu)
    simpa using this
  by_cases hc1 : t < e1
  · have ea : bi - e1 + t = bi - 1 - (e1 - 1 - t) := by omega
    have eb : bj - e1 + t = bj - 1 - (e1 - 1 - t) := by omega
    rw [ea, eb]
    exact hback _ (by omega)
  · by_cases hc2 : t < e1 + bk
    · have ea : bi - e1 + t = bi + (t - e1) := by omega
      have eb : bj - e1 + t = bj + (t - e1) := by omega
      rw [ea, eb]
      exact hloop _ (by omega)
    · have ea : bi - e1 + t = bi - e1 + (bk + e1) + (t - e1 - bk) := by omega
      have eb : bj - e1 + t = bj - e1 + (bk + e1) + (t - e1 - bk) := by omega
      rw [ea, eb]
      exact hfwd _ (by omega)


theorem matchingBlocksAux_matchEq (a b : List String) :
    ∀ (fuel alo ahi blo bhi : Nat), alo ≤ ahi → blo ≤ bhi →
      ∀ blk ∈ matchingBlocksAux a b fuel alo ahi blo bhi, MatchEq a b blk := by
  intro fuel
  induction fuel with
  | zero => intro alo ahi blo bhi _ _ blk hblk; simp [matchingBlocksAux] at hblk
  | succ fuel ih =>
    intro alo ahi blo bhi ha hb blk hblk
    have hmeq := findLongestMatch_matchEq a b alo ahi blo bhi ha hb
    have hbd := findLongestMatch_bounds a b alo ahi blo bhi ha hb
    rcases hm : findLongestMatch a b alo ahi blo bhi with ⟨i, j, k⟩
    rw [hm] at hmeq hbd
    obtain ⟨h1, h2, h3, h4⟩ := hbd
    simp only at h1 h2 h3 h4
    simp only [matchingBlocksAux, hm] at hblk
    by_cases hk : k = 0
    · rw [if_pos hk] at hblk
      simp at hblk
    · rw [if_neg hk] at hblk
      rw [List.append_assoc, List.singleton_append] at hblk
      rcases List.mem_append.mp hblk with hleft | hmid
      · by_cases hl : alo < i ∧ blo < j
        · rw [if_pos hl] at hleft
          exact ih alo i blo j (by omega) (by omega) blk hleft
        · rw [if_neg hl] at hleft
          simp at hleft
      · rcases List.mem_cons.mp hmid with hb1 | hright
        · rw [hb1]
          exact hmeq
        · by_cases hr : i + k < ahi ∧ j + k < bhi
          · rw [if_pos hr] at hright
            exact ih (i + k) ahi (j + k) bhi (by omega) (by omega) blk hright
          · rw [if_neg hr] at hright
            simp at hright

theorem matchEq_merge (a b : List String) (i1 j1 k1 i2 j2 k2 : Nat)
    (h1 : MatchEq a b (i1, j1, k1)) (h2 : MatchEq a b (i2, j2, k2))
    (hi : i1 + k1 = i2) (hj : j1 + k1 = j2) : MatchEq a b (i1, j1, k1 + k2) := by
  intro t ht
  by_cases hc : t < k1
  · exact h1 t hc
  · have ea : i1 + t = i2 + (t - k1) := by omega
    have eb : j1 + t = j2 + (t - k1) := by omega
    rw [ea, eb]
    exact h2 _ (by omega)

theorem collapseGo_matchEq (a b : List String) :
    ∀ (bs : List (Nat × Nat × Nat)) (i1 j1 k1 : Nat),
      MatchEq a b (i1, j1, k1) → (∀ blk ∈ bs, MatchEq a b blk) →
      ∀ blk ∈ collapseGo i1 j1 k1 bs, MatchEq a b blk := by
  intro bs
  induction bs with
  | nil =>
    intro i1 j1 k1 hhead _ blk hblk
    simp only [collapseGo] at hblk
    split at hblk
    · rcases List.mem_singleton.mp hblk with rfl
      exact hhead
    · simp at hblk
  | cons hd rest ih =>
    obtain ⟨i2, j2, k2⟩ := hd
    intro i1 j1 k1 hhead hall blk hblk
    have hhd : MatchEq a b (i2, j2, k2) := hall _ (List.mem_cons_self _ _)
    have htl : ∀ blk ∈ rest, MatchEq a b blk :=
      fun x hx => hall x (List.mem_cons_of_mem _ hx)
    simp only [collapseGo] at hblk
    split at hblk
    · next hadj =>
      exact ih i1 j1 (k1 + k2)
        (matchEq_merge a b i1 j1 k1 i2 j2 k2 hhead hhd hadj.1 hadj.2) htl blk hblk
    · rcases List.mem_append.mp hblk with hflush | hrest
      · split at hflush
        · rcases List.mem_singleton.mp hflush with rfl
          exact hhead
        · simp at hflush
      · exact ih i2 j2 k2 hhd htl blk hrest

/-- The well-formedness the spec implies for each opcode: a known tag; `equal`
opcodes cover equally long, elementwise-identical ranges; `insert` opcodes
cover an empty range of the first sequence; `delete` opcodes an empty range of
the second. -/
def OpcodeWf (a b : List String) (op : Opcode) : Prop :=
  (op.tag = "equal" ∨ op.tag = "replace" ∨ op.tag = "delete" ∨ op.tag = "insert") ∧
  (op.tag = "equal" →
    op.a_end - op.a_start = op.b_end - op.b_start ∧
    ∀ t, t < op.a_end - op.a_start →
      a.getD (op.a_start + t) "" = b.getD (op.b_start + t) "") ∧
  (op.tag = "insert" → op.a_start = op.a_end) ∧
  (op.tag = "delete" → op.b_start = op.b_end)

theorem opcodesFromBlocks_wf (a b : List String) (la lb : Nat) :
    ∀ (bs : List (Nat × Nat × Nat)) (i j : Nat),
      ChainBetween i j bs la lb →
      (∀ blk ∈ bs, MatchEq a b blk) →
      ∀ op ∈ opcodesFromBlocks i j bs, OpcodeWf a b op := by
  intro bs
  induction bs with
  | nil => intro i j _ _ op hop; simp [opcodesFromBlocks] at hop
  | cons hd rest ih =>
    obtain ⟨bi, bj, bk⟩ := hd
    intro i j hchain hall op hop
    obtain ⟨hi, hj, hrest⟩ := hchain
    have hhd : MatchEq a b (bi, bj, bk) := hall _ (List.mem_cons_self _ _)
    have htl := ih (bi + bk) (bj + bk) hrest (fun x hx => hall x (List.mem_cons_of_mem _ hx))
    simp only [opcodesFromBlocks] at hop
    rcases List.mem_append.mp hop with hop1 | hoprest
    · rcases List.mem_append.mp hop1 with htag | heq
      · -- the replace/delete/insert opcode before the block
        by_cases h1 : i < bi ∧ j < bj
        · rw [if_pos h1] at htag
          rcases List.mem_singleton.mp htag with rfl
          refine ⟨Or.inr (Or.inl rfl), ?_, ?_, ?_⟩ <;> intro habs <;> simp at habs
        · rw [if_neg h1] at htag
          by_cases h2 : i < bi
          · rw [if_pos h2] at htag
            rcases List.mem_singleton.mp htag with rfl
            refine ⟨Or.inr (Or.inr (Or.inl rfl)), ?_, ?_, ?_⟩
            · intro habs; simp at habs
            · intro habs; simp at habs
            · intro _
              show j = bj
              omega
          · by_cases h3 : j < bj
            · rw [if_neg h2, if_pos h3] at htag
              rcases List.mem_singleton.mp htag with rfl
              refine ⟨Or.inr (Or.inr (Or.inr rfl)), ?_, ?_, ?_⟩
              · intro habs; simp at habs
              · intro _
                show i = bi
                omega
              · intro habs; simp at habs
            · rw [if_neg h2, if_neg h3] at htag
              simp at htag
      · by_cases hkz : bk ≠ 0
        · rw [if_pos hkz] at heq
          rcases List.mem_singleton.mp heq with rfl
          refine ⟨Or.inl rfl, ?_, ?_, ?_⟩
          · intro _
            constructor
            · show bi + bk - bi = bj + bk - bj
              omega
            · intro t ht
              have ht' : t < bk := by
                have : bi + bk - bi = bk := by omega
                rw [this] at ht
                exact ht
              exact hhd t ht'
          · intro habs; simp at habs
          · intro habs; simp at habs
        · rw [if_neg hkz] at heq
          simp at heq
    · exact htl op hoprest


/-! ## Diff of a snapshot with itself (C8)

For `b = a` the inner loop's best match always lies on the diagonal: every
chain value is bounded by the run of autojunk-surviving elements ending at
its `b` position (off-diagonal positions left of the outer index are already
covered by the running maximum), the diagonal entry attains its run exactly,
and the ascending candidate order makes the diagonal the first strict
improvement.  The extension loops then grow the diagonal match to the whole
sequence. -/

/-- The length of the run of autojunk-surviving elements of `a` ending at
position `i` (`0` whenever position `i`'s element was deleted from `b2j`). -/
def diagRun (a : List String) : Nat → Nat
  | 0 => if b2j a (a.getD 0 "") = [] then 0 else 1
  | i + 1 => if b2j a (a.getD (i + 1) "") = [] then 0 else diagRun a i + 1

/-- The maximum of `diagRun` over positions `< s`. -/
def maxRunUpTo (a : List String) : Nat → Nat
  | 0 => 0
  | s + 1 => max (maxRunUpTo a s) (diagRun a s)

theorem diagRun_zero_eq (a : List String) :
    diagRun a 0 = if b2j a (a.getD 0 "") = [] then 0 else 1 := rfl

theorem diagRun_succ_eq (a : List String) (i : Nat) :
    diagRun a (i + 1) = if b2j a (a.getD (i + 1) "") = [] then 0 else diagRun a i + 1 := rfl

theorem maxRunUpTo_succ_eq (a : List String) (s : Nat) :
    maxRunUpTo a (s + 1) = max (maxRunUpTo a s) (diagRun a s) := rfl

theorem b2j_ne_nil_eq (b : List String) (x : String) (h : b2j b x ≠ []) :
    b2j b x = (List.range b.length).filter (fun j => decide (b.getD j "" = x)) := by
  by_cases hc : 200 ≤ b.length ∧ b.length / 100 + 1 < b.count x
  · exact absurd (by unfold b2j; rw [if_pos hc]) h
  · unfold b2j
    rw [if_neg hc]

theorem diagRun_zero_of_nil (a : List String) (s : Nat)
    (h : b2j a (a.getD s "") = []) : diagRun a s = 0 := by
  cases s with
  | zero => rw [diagRun_zero_eq, if_pos h]
  | succ s' => rw [diagRun_succ_eq, if_pos h]

theorem diagRun_zero_nonnil (a : List String) (h : b2j a (a.getD 0 "") ≠ []) :
    diagRun a 0 = 1 := by
  rw [diagRun_zero_eq, if_neg h]

theorem diagRun_succ_nonnil (a : List String) (s : Nat)
    (h : b2j a (a.getD (s + 1) "") ≠ []) : diagRun a (s + 1) = diagRun a s + 1 := by
  rw [diagRun_succ_eq, if_neg h]

theorem diagRun_pos_nonnil (a : List String) (s : Nat)
    (h : b2j a (a.getD s "") ≠ []) : 1 ≤ diagRun a s := by
  cases s with
  | zero => rw [diagRun_zero_nonnil a h]
  | succ s' => rw [diagRun_succ_nonnil a s' h]; omega

theorem diagRun_le_maxRunUpTo (a : List String) (j : Nat) :
    ∀ s, j < s → diagRun a j ≤ maxRunUpTo a s := by
  intro s
  induction s with
  | zero => intro h; omega
  | succ s ih =>
    intro h
    rw [maxRunUpTo_succ_eq]
    by_cases hj : j = s
    · subst hj
      exact le_max_right _ _
    · exact le_trans (ih (by omega)) (le_max_left _ _)

/-- The best-candidate component of one inner-loop step. -/
theorem innerUpd_best (old : Nat → Nat) (i : Nat) (acc : (Nat → Nat) × (Nat × Nat × Nat))
    (j : Nat) :
    (innerUpd old i acc j).2 =
      if acc.2.2.2 < chainLen old j then
        (i + 1 - chainLen old j, j + 1 - chainLen old j, chainLen old j)
      else acc.2 := rfl

/-- The dictionary built by one inner pass, characterised pointwise. -/
theorem innerUpd_foldl_f (old : Nat → Nat) (s : Nat) :
    ∀ (js : List Nat) (acc : (Nat → Nat) × (Nat × Nat × Nat)) (x : Nat),
      (js.foldl (innerUpd old s) acc).1 x =
        if x ∈ js then chainLen old x else acc.1 x := by
  intro js
  induction js with
  | nil => intro acc x; simp
  | cons j js ih =>
    intro acc x
    simp only [List.foldl_cons]
    rw [ih]
    by_cases hmem : x ∈ js
    · rw [if_pos hmem, if_pos (List.mem_cons_of_mem _ hmem)]
    · rw [if_neg hmem]
      by_cases hx : x = j
      · subst hx
        simp [innerUpd, List.mem_cons]
      · simp [innerUpd, hx, List.mem_cons, hmem]

theorem innerSelf_foldl (a : List String) (old : Nat → Nat) (s : Nat)
    (hchain_le_diag : ∀ j, a.getD j "" = a.getD s "" → chainLen old j ≤ diagRun a j)
    (hchain_le_s : ∀ j, chainLen old j ≤ diagRun a s)
    (hchain_diag : chainLen old s = diagRun a s) :
    ∀ (js : List Nat), js.Pairwise (· < ·) →
      (∀ j ∈ js, a.getD j "" = a.getD s "") →
      ∀ (acc : (Nat → Nat) × (Nat × Nat × Nat)),
        acc.2.1 = acc.2.2.1 →
        ((s ∈ js ∧ acc.2.2.2 = maxRunUpTo a s) ∨
          (s ∉ js ∧ acc.2.2.2 = maxRunUpTo a (s + 1))) →
        (js.foldl (innerUpd old s) acc).2.1 = (js.foldl (innerUpd old s) acc).2.2.1 ∧
        (js.foldl (innerUpd old s) acc).2.2.2 = maxRunUpTo a (s + 1) := by
  intro js
  induction js with
  | nil =>
    intro _ _ acc hdiag hinv
    rcases hinv with ⟨habs, _⟩ | ⟨_, hsz⟩
    · simp at habs
    · exact ⟨hdiag, hsz⟩
  | cons j js ih =>
    intro hpair hmem acc hdiag hinv
    have hpair' := (List.pairwise_cons.mp hpair).2
    have hlt := (List.pairwise_cons.mp hpair).1
    have hmem' : ∀ x ∈ js, a.getD x "" = a.getD s "" :=
      fun x hx => hmem x (List.mem_cons_of_mem _ hx)
    simp only [List.foldl_cons]
    by_cases hjs : j = s
    · subst hjs
      have hs_not_tl : j ∉ js := fun hc => absurd (hlt j hc) (by omega)
      rcases hinv with ⟨_, hsz⟩ | ⟨habs, _⟩
      · apply ih hpair' hmem' _ ?_ ?_
        · rw [innerUpd_best]
          by_cases hcd : acc.2.2.2 < chainLen old j
          · rw [if_pos hcd]
          · rw [if_neg hcd]
            exact hdiag
        · refine Or.inr ⟨hs_not_tl, ?_⟩
          rw [innerUpd_best, hchain_diag, maxRunUpTo_succ_eq]
          by_cases hcd : acc.2.2.2 < diagRun a j
          · rw [if_pos hcd]
            show diagRun a j = max (maxRunUpTo a j) (diagRun a j)
            rw [hsz] at hcd
            rw [Nat.max_eq_right (le_of_lt hcd)]
          · rw [if_neg hcd, hsz]
            rw [hsz] at hcd
            rw [Nat.max_eq_left (by omega)]
      · exact absurd (List.mem_cons_self _ _) habs
    · rcases hinv with ⟨hs_mem, hsz⟩ | ⟨hs_not, hsz⟩
      · have hs_tl : s ∈ js := by
          rcases List.mem_cons.mp hs_mem with h | h
          · exact absurd h.symm hjs
          · exact h
        have hjlt : j < s := hlt s hs_tl
        have hk : chainLen old j ≤ acc.2.2.2 := by
          rw [hsz]
          exact le_trans (hchain_le_diag j (hmem j (List.mem_cons_self _ _)))
            (diagRun_le_maxRunUpTo a j s hjlt)
        apply ih hpair' hmem' _ ?_ ?_
        · rw [innerUpd_best, if_neg (by omega)]
          exact hdiag
        · refine Or.inl ⟨hs_tl, ?_⟩
          rw [innerUpd_best, if_neg (by omega)]
          exact hsz
      · have hk : chainLen old j ≤ acc.2.2.2 := by
          rw [hsz, maxRunUpTo_succ_eq]
          exact le_trans (hchain_le_s j) (le_max_right _ _)
        have hs_tl : s ∉ js := fun hc => hs_not (List.mem_cons_of_mem _ hc)
        apply ih hpair' hmem' _ ?_ ?_
        · rw [innerUpd_best, if_neg (by omega)]
          exact hdiag
        · refine Or.inr ⟨hs_tl, ?_⟩
          rw [innerUpd_best, if_neg (by omega)]
          exact hsz


theorem chainLen_zero (old : Nat → Nat) : chainLen old 0 = 1 := rfl

theorem chainLen_succ (old : Nat → Nat) (j : Nat) : chainLen old (j + 1) = old j + 1 := rfl

/-- `diagRun` at the previous position (`0` at the start). -/
def prevDiag (a : List String) : Nat → Nat
  | 0 => 0
  | s + 1 => diagRun a s

theorem prevDiag_succ_eq (a : List String) (s : Nat) : prevDiag a (s + 1) = diagRun a s := rfl

theorem outerSelf_foldl (a : List String) :
    ∀ (m s : Nat) (st : (Nat → Nat) × (Nat × Nat × Nat)),
      s + m ≤ a.length →
      (∀ j, st.1 j ≤ diagRun a j) →
      (∀ j, st.1 j ≤ prevDiag a s) →
      (∀ s', s = s' + 1 → st.1 s' = diagRun a s') →
      st.2.1 = st.2.2.1 → st.2.2.2 = maxRunUpTo a s →
      ((List.range' s m).foldl (outerUpd a a 0 a.length) st).2.1 =
        ((List.range' s m).foldl (outerUpd a a 0 a.length) st).2.2.1 ∧
      ((List.range' s m).foldl (outerUpd a a 0 a.length) st).2.2.2 =
        maxRunUpTo a (s + m) := by
  intro m
  induction m with
  | zero =>
    intro s st _ _ _ _ hdiag hsz
    exact ⟨hdiag, hsz⟩
  | succ m ih =>
    intro s st hbound hF1 hF3 hF2 hdiag hsz
    rw [show List.range' s (m + 1) = s :: List.range' (s + 1) m from rfl, List.foldl_cons]
    have hidx : s + (m + 1) = (s + 1) + m := by omega
    rw [hidx]
    have hst0 : outerUpd a a 0 a.length st s =
        ((b2j a (a.getD s "")).filter
          (fun j => decide (0 ≤ j) && decide (j < a.length))).foldl
          (innerUpd st.1 s) ((fun _ => 0), st.2) := rfl
    by_cases hpop : b2j a (a.getD s "") = []
    · -- autojunk-deleted element: empty candidate list, dictionary resets
      have hstep : outerUpd a a 0 a.length st s = ((fun _ => 0), st.2) := by
        rw [hst0, hpop]
        rfl
      rw [hstep]
      refine ih (s + 1) ((fun _ => 0), st.2) (by omega)
        (fun j => Nat.zero_le _) (fun j => Nat.zero_le _) ?_ hdiag ?_
      · intro s' hs'
        have hss : s' = s := by omega
        subst hss
        exact (diagRun_zero_of_nil a s' hpop).symm
      · rw [maxRunUpTo_succ_eq, diagRun_zero_of_nil a s hpop, Nat.max_zero]
        exact hsz
    · have hs_lt : s < a.length := by omega
      have hform := b2j_ne_nil_eq a (a.getD s "") hpop
      have hjs_eq : (b2j a (a.getD s "")).filter
          (fun j => decide (0 ≤ j) && decide (j < a.length)) = b2j a (a.getD s "") := by
        apply List.filter_eq_self.mpr
        intro j hj
        rw [hform] at hj
        have hjr := List.mem_range.mp (List.mem_filter.mp hj).1
        simp [hjr]
      have hmem_js : ∀ j ∈ b2j a (a.getD s ""), a.getD j "" = a.getD s "" := by
        intro j hj
        rw [hform] at hj
        exact of_decide_eq_true (List.mem_filter.mp hj).2
      have hpair_js : (b2j a (a.getD s "")).Pairwise (· < ·) := by
        rw [hform]
        exact List.Pairwise.filter _ (List.pairwise_lt_range _)
      have hs_in : s ∈ b2j a (a.getD s "") := by
        rw [hform]
        exact List.mem_filter.mpr ⟨List.mem_range.mpr hs_lt, by simp⟩
      have hnn : ∀ j, a.getD j "" = a.getD s "" → b2j a (a.getD j "") ≠ [] := by
        intro j hj
        rw [hj]
        exact hpop
      have hcd : ∀ j, a.getD j "" = a.getD s "" → chainLen st.1 j ≤ diagRun a j := by
        intro j hj
        cases j with
        | zero => exact diagRun_pos_nonnil a 0 (hnn 0 hj)
        | succ j' =>
          rw [chainLen_succ, diagRun_succ_nonnil a j' (hnn (j' + 1) hj)]
          exact Nat.succ_le_succ (hF1 j')
      have hcs : ∀ j, chainLen st.1 j ≤ diagRun a s := by
        have h1 := diagRun_pos_nonnil a s hpop
        intro j
        cases j with
        | zero => exact h1
        | succ j' =>
          rw [chainLen_succ]
          cases s with
          | zero =>
            have hz : st.1 j' = 0 := Nat.le_zero.mp (hF3 j')
            rw [hz]
            exact h1
          | succ s'' =>
            have hd := hF3 j'
            rw [prevDiag_succ_eq] at hd
            rw [diagRun_succ_nonnil a s'' hpop]
            omega
      have hcdg : chainLen st.1 s = diagRun a s := by
        cases s with
        | zero => exact (diagRun_zero_nonnil a hpop).symm
        | succ s'' =>
          rw [chainLen_succ, hF2 s'' rfl, diagRun_succ_nonnil a s'' hpop]
      have hstep : outerUpd a a 0 a.length st s =
          (b2j a (a.getD s "")).foldl (innerUpd st.1 s) ((fun _ => 0), st.2) := by
        rw [hst0, hjs_eq]
      rw [hstep]
      have hinner := innerSelf_foldl a st.1 s hcd hcs hcdg (b2j a (a.getD s ""))
        hpair_js hmem_js ((fun _ => 0), st.2) hdiag (Or.inl ⟨hs_in, hsz⟩)
      have hf' : ∀ x, ((b2j a (a.getD s "")).foldl (innerUpd st.1 s)
          ((fun _ => 0), st.2)).1 x =
          if x ∈ b2j a (a.getD s "") then chainLen st.1 x else 0 :=
        fun x => innerUpd_foldl_f st.1 s (b2j a (a.getD s "")) ((fun _ => 0), st.2) x
      refine ih (s + 1) _ (by omega) ?_ ?_ ?_ hinner.1 hinner.2
      · intro j
        rw [hf' j]
        by_cases hj : j ∈ b2j a (a.getD s "")
        · rw [if_pos hj]
          exact hcd j (hmem_js j hj)
        · rw [if_neg hj]
          exact Nat.zero_le _
      · intro j
        rw [hf' j, prevDiag_succ_eq]
        by_cases hj : j ∈ b2j a (a.getD s "")
        · rw [if_pos hj]
          exact hcs j
        · rw [if_neg hj]
          exact Nat.zero_le _
      · intro s' hs'
        have hss : s' = s := by omega
        subst hss
        rw [hf' s', if_pos hs_in]
        exact hcdg

theorem flmLoop_self (a : List String) :
    (flmLoop a a 0 a.length 0 a.length).2.1 = (flmLoop a a 0 a.length 0 a.length).2.2.1 ∧
    (flmLoop a a 0 a.length 0 a.length).2.2.2 = maxRunUpTo a a.length := by
  have h := outerSelf_foldl a a.length 0 ((fun _ => 0), (0, 0, 0))
    (by omega) (fun j => Nat.zero_le _) (fun j => Nat.zero_le _)
    (fun s' hs' => absurd hs' (by omega)) rfl rfl
  rw [Nat.zero_add] at h
  have he : flmLoop a a 0 a.length 0 a.length =
      (List.range' 0 a.length).foldl (outerUpd a a 0 a.length) ((fun _ => 0), (0, 0, 0)) := by
    unfold flmLoop
    rw [Nat.sub_zero]
  rw [he]
  exact h

theorem takeWhile_true_of (l : List Nat) (p : Nat → Bool) (h : ∀ x ∈ l, p x = true) :
    l.takeWhile p = l := by
  induction l with
  | nil => rfl
  | cons x l ih =>
    rw [List.takeWhile_cons_of_pos (h x (List.mem_cons_self _ _))]
    rw [ih (fun y hy => h y (List.mem_cons_of_mem _ hy))]

theorem extendBack_self (a : List String) (d : Nat) : extendBack a a 0 0 d d = d := by
  unfold extendBack
  rw [Nat.sub_zero, Nat.min_self]
  rw [takeWhile_true_of _ _ (fun x _ => by simp)]
  exact List.length_range d

theorem extendFwd_self (a : List String) (n e : Nat) : extendFwd a a n n e e = n - e := by
  unfold extendFwd
  rw [Nat.min_self]
  rw [takeWhile_true_of _ _ (fun x _ => by simp)]
  exact List.length_range _

theorem findLongestMatch_self (a : List String) :
    findLongestMatch a a 0 a.length 0 a.length = (0, 0, a.length) := by
  obtain ⟨hdg, hsz⟩ := flmLoop_self a
  have hloop : BestBounded 0 a.length 0 a.length (flmLoop a a 0 a.length 0 a.length).2 := by
    unfold flmLoop
    apply outerUpd_foldl_inv a a 0 a.length 0 a.length (a.length - 0) 0
      ((fun _ => 0), (0, 0, 0)) le_rfl (by omega)
      (by intro j; exact Nat.zero_le _) (by intro j hj; exact absurd rfl hj)
    exact ⟨le_rfl, by simp, le_rfl, by simp⟩
  rcases hb2 : (flmLoop a a 0 a.length 0 a.length).2 with ⟨bi, bj, bk⟩
  rw [hb2] at hloop hdg
  simp only at hdg
  subst hdg
  obtain ⟨h1, h2, h3, h4⟩ := hloop
  simp only at h2
  unfold findLongestMatch
  rw [hb2]
  simp only [extendBack_self, extendFwd_self]
  rw [Prod.mk.injEq, Prod.mk.injEq]
  refine ⟨by omega, by omega, by omega⟩

theorem collapseGo_cons_eq (i1 j1 k1 i2 j2 k2 : Nat) (rest : List (Nat × Nat × Nat)) :
    collapseGo i1 j1 k1 ((i2, j2, k2) :: rest) =
      if i1 + k1 = i2 ∧ j1 + k1 = j2 then collapseGo i1 j1 (k1 + k2) rest
      else (if k1 ≠ 0 then [(i1, j1, k1)] else []) ++ collapseGo i2 j2 k2 rest := by
  simp only [collapseGo]

theorem opcodesFromBlocks_cons_eq (i j ai bj size : Nat) (rest : List (Nat × Nat × Nat)) :
    opcodesFromBlocks i j ((ai, bj, size) :: rest) =
      (if i < ai ∧ j < bj then [⟨"replace", i, ai, j, bj⟩]
       else if i < ai then [⟨"delete", i, ai, j, bj⟩]
       else if j < bj then [⟨"insert", i, ai, j, bj⟩]
       else []) ++
      (if size ≠ 0 then [⟨"equal", ai, ai + size, bj, bj + size⟩] else []) ++
      opcodesFromBlocks (ai + size) (bj + size) rest := by
  simp only [opcodesFromBlocks]

theorem getMatchingBlocks_self (a : List String) (h : a ≠ []) :
    getMatchingBlocks a a = [(0, 0, a.length), (a.length, a.length, 0)] := by
  have hlen : a.length ≠ 0 := fun hc => h (List.length_eq_zero.mp hc)
  have haux : matchingBlocksAux a a (a.length + 1) 0 a.length 0 a.length =
      [(0, 0, a.length)] := by
    rw [matchingBlocksAux_succ_eq, findLongestMatch_self]
    simp only
    rw [if_neg hlen, if_neg (by omega), if_neg (by omega)]
    simp
  unfold getMatchingBlocks
  rw [haux, collapseGo_cons_eq, if_pos ⟨rfl, rfl⟩, collapseGo_nil_eq,
    if_pos (show 0 + a.length ≠ 0 by omega)]
  simp

theorem getOpcodes_self (a : List String) (h : a ≠ []) :
    getOpcodes a a = [⟨"equal", 0, a.length, 0, a.length⟩] := by
  have hlen : a.length ≠ 0 := fun hc => h (List.length_eq_zero.mp hc)
  unfold getOpcodes
  rw [getMatchingBlocks_self a h, opcodesFromBlocks_cons_eq,
    if_neg (by omega), if_neg (by omega), if_neg (by omega), if_pos hlen,
    opcodesFromBlocks_cons_eq,
    if_neg (by omega), if_neg (by omega), if_neg (by omega), if_neg (by simp),
    opcodesFromBlocks_nil_eq]
  simp

theorem getOpcodes_nil : getOpcodes ([] : List String) [] = [] := by decide


attribute [irreducible] b2j chainLen innerUpd innerStep outerUpd flmLoop extendBack
  extendFwd findLongestMatch matchingBlocksAux collapseGo getMatchingBlocks
  opcodesFromBlocks getOpcodes

/-- The opcodes of any two line sequences partition both of them. -/
theorem getOpcodes_partition (a b : List String) :
    OpcodesPartition 0 0 (getOpcodes a b) a.length b.length := by
  have he : getOpcodes a b =
      opcodesFromBlocks 0 0
        (collapseGo 0 0 0 (matchingBlocksAux a b (a.length + 1) 0 a.length 0 b.length) ++
          [(a.length, b.length, 0)]) := by
    rw [getOpcodes, getMatchingBlocks]
  have hrawchain := matchingBlocksAux_chain a b (a.length + 1) 0 a.length 0 b.length
    (Nat.zero_le _) (Nat.zero_le _)
  rw [he]
  generalize hraw : matchingBlocksAux a b (a.length + 1) 0 a.length 0 b.length = raw
  rw [hraw] at hrawchain
  exact opcodesFromBlocks_partition a.length b.length (collapseGo 0 0 0 raw) 0 0
    (collapseGo_chain raw 0 0 0 0 0 a.length b.length hrawchain le_rfl le_rfl)

/-- **C3.** Every successful diff's opcode sequence partitions both line
sequences with no gaps and no overlaps: consecutive opcodes meet exactly
(`a_end`/`b_end` equal the next opcode's `a_start`/`b_start`), the first
opcode starts at `(0, 0)`, and the last ends at
`(len first_lines, len second_lines)`. -/
theorem diff_opcodes_partition (dev : DeviceState) (v1 v2 : String) (r : DiffResult)
    (h : get_configuration_diff dev v1 v2 = .ok r) :
    OpcodesPartition 0 0 r.opcodes r.first.length r.second.length := by
  rcases hp1 : parseTimestamp v1 with _ | d1
  · simp only [get_configuration_diff, hp1] at h
    exact Except.noConfusion h
  rcases hp2 : parseTimestamp v2 with _ | d2
  · simp only [get_configuration_diff, hp1, hp2] at h
    exact Except.noConfusion h
  rcases hl1 : dictLookup dev.configurations d1 with _ | t1
  · simp only [get_configuration_diff, hp1, hp2, hl1] at h
    exact Except.noConfusion h
  rcases hl2 : dictLookup dev.configurations d2 with _ | t2
  · simp only [get_configuration_diff, hp1, hp2, hl1, hl2] at h
    exact Except.noConfusion h
  simp only [get_configuration_diff, hp1, hp2, hl1, hl2, Except.ok.injEq] at h
  subst h
  exact getOpcodes_partition (splitlines t1) (splitlines t2)

/-- Every opcode of any two line sequences is well-formed. -/
theorem getOpcodes_wf (a b : List String) :
    ∀ op ∈ getOpcodes a b, OpcodeWf a b op := by
  have hchain := matchingBlocksAux_chain a b (a.length + 1) 0 a.length 0 b.length
    (Nat.zero_le _) (Nat.zero_le _)
  have hmeq := matchingBlocksAux_matchEq a b (a.length + 1) 0 a.length 0 b.length
    (Nat.zero_le _) (Nat.zero_le _)
  have he : getOpcodes a b =
      opcodesFromBlocks 0 0
        (collapseGo 0 0 0 (matchingBlocksAux a b (a.length + 1) 0 a.length 0 b.length) ++
          [(a.length, b.length, 0)]) := by
    rw [getOpcodes, getMatchingBlocks]
  rw [he]
  generalize hraw : matchingBlocksAux a b (a.length + 1) 0 a.length 0 b.length = raw
  rw [hraw] at hchain hmeq
  apply opcodesFromBlocks_wf a b a.length b.length _ 0 0
  · exact chainBetween_append _ _ 0 0 a.length b.length a.length b.length
      (collapseGo_chain raw 0 0 0 0 0 a.length b.length hchain le_rfl le_rfl)
      ⟨le_rfl, le_rfl, le_rfl, le_rfl⟩
  · intro blk hblk
    rcases List.mem_append.mp hblk with hc | hsent
    · exact collapseGo_matchEq a b raw 0 0 0 (by intro t ht; simp at ht) hmeq blk hc
    · rcases List.mem_singleton.mp hsent with rfl
      intro t ht
      simp at ht

/-- **C10.** In every successful diff result, every opcode's tag is one of
`equal`, `replace`, `delete`, `insert`; every `equal` opcode covers ranges of
equal length whose lines are pairwise identical in the two sequences; every
`insert` opcode has an empty first-sequence range (`a_start = a_end`); and
every `delete` opcode has an empty second-sequence range
(`b_start = b_end`). -/
theorem diff_opcodes_wellformed (dev : DeviceState) (v1 v2 : String) (r : DiffResult)
    (h : get_configuration_diff dev v1 v2 = .ok r) :
    ∀ op ∈ r.opcodes, OpcodeWf r.first r.second op := by
  rcases hp1 : parseTimestamp v1 with _ | d1
  · simp only [get_configuration_diff, hp1] at h
    exact Except.noConfusion h
  rcases hp2 : parseTimestamp v2 with _ | d2
  · simp only [get_configuration_diff, hp1, hp2] at h
    exact Except.noConfusion h
  rcases hl1 : dictLookup dev.configurations d1 with _ | t1
  · simp only [get_configuration_diff, hp1, hp2, hl1] at h
    exact Except.noConfusion h
  rcases hl2 : dictLookup dev.configurations d2 with _ | t2
  · simp only [get_configuration_diff, hp1, hp2, hl1, hl2] at h
    exact Except.noConfusion h
  simp only [get_configuration_diff, hp1, hp2, hl1, hl2, Except.ok.injEq] at h
  subst h
  exact getOpcodes_wf (splitlines t1) (splitlines t2)

/-- **C8.** `diff(D, t, t)` with the same recorded timestamp passed twice:
the two line sequences coincide, and the opcode list is exactly one `equal`
opcode spanning the full line ranges whenever the snapshot has at least one
line; when the snapshot text has no lines (the empty text) the diff yields
no opcode at all — refuting the unconditional "exactly one opcode" — and in
no case is there an `insert`, `delete` or `replace` opcode. -/
theorem diff_same_timestamp (dev : DeviceState) (v : String) (r : DiffResult)
    (h : get_configuration_diff dev v v = .ok r) :
    r.second = r.first ∧
    (r.first ≠ [] → r.opcodes = [⟨"equal", 0, r.first.length, 0, r.first.length⟩]) ∧
    (r.first = [] → r.opcodes = []) := by
  rcases hp1 : parseTimestamp v with _ | d1
  · simp only [get_configuration_diff, hp1] at h
    exact Except.noConfusion h
  rcases hl1 : dictLookup dev.configurations d1 with _ | t1
  · simp only [get_configuration_diff, hp1, hl1] at h
    exact Except.noConfusion h
  simp only [get_configuration_diff, hp1, hl1, Except.ok.injEq] at h
  subst h
  refine ⟨rfl, ?_, ?_⟩
  · intro h1
    replace h1 : splitlines t1 ≠ [] := h1
    show getOpcodes (splitlines t1) (splitlines t1) =
      [⟨"equal", 0, (splitlines t1).length, 0, (splitlines t1).length⟩]
    exact getOpcodes_self (splitlines t1) h1
  · intro h0
    replace h0 : splitlines t1 = [] := h0
    show getOpcodes (splitlines t1) (splitlines t1) = []
    rw [h0]
    exact getOpcodes_nil

set_option allowUnsafeReducibility true in
attribute [semireducible] b2j chainLen innerUpd innerStep outerUpd flmLoop extendBack
  extendFwd findLongestMatch matchingBlocksAux collapseGo getMatchingBlocks
  opcodesFromBlocks getOpcodes

theorem diff_opcodes_partition_witness :
    OpcodesPartition 0 0 [Opcode.mk "equal" 0 1 0 1, Opcode.mk "replace" 1 2 1 2] 2 2 :=
  diff_opcodes_partition devC1 "2019+01+01 00:00:00.000000" "2019+01+02 00:00:00.000000"
    ⟨["interface eth0", "ip 1.1.1.1"], ["interface eth0", "ip 1.1.1.2"],
      [⟨"equal", 0, 1, 0, 1⟩, ⟨"replace", 1, 2, 1, 2⟩]⟩ (by decide)

theorem diff_opcodes_wellformed_witness :
    OpcodeWf ["interface eth0", "ip 1.1.1.1"] ["interface eth0", "ip 1.1.1.2"]
      (Opcode.mk "equal" 0 1 0 1) ∧
    OpcodeWf ["interface eth0", "ip 1.1.1.1"] ["interface eth0", "ip 1.1.1.2"]
      (Opcode.mk "replace" 1 2 1 2) :=
  ⟨diff_opcodes_wellformed devC1 "2019+01+01 00:00:00.000000" "2019+01+02 00:00:00.000000"
      ⟨["interface eth0", "ip 1.1.1.1"], ["interface eth0", "ip 1.1.1.2"],
        [⟨"equal", 0, 1, 0, 1⟩, ⟨"replace", 1, 2, 1, 2⟩]⟩ (by decide)
      (Opcode.mk "equal" 0 1 0 1) (by decide),
   diff_opcodes_wellformed devC1 "2019+01+01 00:00:00.000000" "2019+01+02 00:00:00.000000"
      ⟨["interface eth0", "ip 1.1.1.1"], ["interface eth0", "ip 1.1.1.2"],
        [⟨"equal", 0, 1, 0, 1⟩, ⟨"replace", 1, 2, 1, 2⟩]⟩ (by decide)
      (Opcode.mk "replace" 1 2 1 2) (by decide)⟩

/-- **C8, counterexample.** For a device whose snapshot at `t` is the empty
text, `diff(D, t, t)` succeeds with both line sequences empty and **zero**
opcodes — not "exactly one opcode tagged equal": the empty text has no
lines, so `splitlines` gives `[]` and the matcher emits no opcode at all. -/
theorem diff_same_timestamp_empty :
    get_configuration_diff (record emptyDevice ts1 "")
        "2019+01+01 00:00:00.000000" "2019+01+01 00:00:00.000000" =
      .ok ⟨[], [], []⟩ ∧ ∀ op : Opcode, ([] : List Opcode) ≠ [op] :=
  ⟨by decide, fun _ hc => List.noConfusion hc⟩

/-- **C8, witness.** The amended statement instantiated at the concrete
two-line archive: diff of `T1` with itself yields the lone full-range
`equal` opcode. -/
theorem diff_same_timestamp_witness :
    (["interface eth0", "ip 1.1.1.1"] : List String) = ["interface eth0", "ip 1.1.1.1"] ∧
    ((["interface eth0", "ip 1.1.1.1"] : List String) ≠ [] →
      ([⟨"equal", 0, 2, 0, 2⟩] : List Opcode) = [⟨"equal", 0, 2, 0, 2⟩]) ∧
    ((["interface eth0", "ip 1.1.1.1"] : List String) = [] →
      ([⟨"equal", 0, 2, 0, 2⟩] : List Opcode) = []) :=
  diff_same_timestamp devC1 "2019+01+01 00:00:00.000000"
    ⟨["interface eth0", "ip 1.1.1.1"], ["interface eth0", "ip 1.1.1.1"],
      [⟨"equal", 0, 2, 0, 2⟩]⟩ (by decide)

end ENMS
